import Mathlib

/-!
Verification of the record collapse/merge engine of the repository
(`collapse-json-by-id` script).  The definitions below are a shallow
embedding of the TypeScript source: JSON values become an inductive type,
JavaScript objects become insertion-ordered association lists (JavaScript
preserves insertion order for non-index string keys, and every key used by
the engine is such a key), `Map`s become insertion-ordered association
lists as well (`Map.set` on an existing key keeps its position), numbers
are modelled as integers (every numeric value the engine manipulates in
scope is an integer and `Number.isFinite` holds of all of them), and code
that can throw returns `Option` (`none` = an exception propagating to the
caller).
-/

namespace Collapse

/-- JSON values (`JsonValue` of the source).  Objects are insertion-ordered
association lists of fields; numbers are modelled as integers. -/
inductive Json where
  | null : Json
  | bool (b : Bool) : Json
  | num (n : Int) : Json
  | str (s : String) : Json
  | arr (elems : List Json) : Json
  | obj (fields : List (String × Json)) : Json

mutual

/-- Decidable equality on JSON values (the deriving handler does not
support the nested inductive). -/
def Json.decEq : (a b : Json) → Decidable (a = b)
  | .null, .null => isTrue rfl
  | .bool x, .bool y =>
    if h : x = y then isTrue (by rw [h]) else isFalse (fun hc => h (Json.bool.inj hc))
  | .num x, .num y =>
    if h : x = y then isTrue (by rw [h]) else isFalse (fun hc => h (Json.num.inj hc))
  | .str x, .str y =>
    if h : x = y then isTrue (by rw [h]) else isFalse (fun hc => h (Json.str.inj hc))
  | .arr xs, .arr ys =>
    match Json.decEqList xs ys with
    | isTrue h => isTrue (by rw [h])
    | isFalse h => isFalse (fun hc => h (Json.arr.inj hc))
  | .obj fs, .obj gs =>
    match Json.decEqFields fs gs with
    | isTrue h => isTrue (by rw [h])
    | isFalse h => isFalse (fun hc => h (Json.obj.inj hc))
  | .null, .bool _ => isFalse (fun h => Json.noConfusion h)
  | .null, .num _ => isFalse (fun h => Json.noConfusion h)
  | .null, .str _ => isFalse (fun h => Json.noConfusion h)
  | .null, .arr _ => isFalse (fun h => Json.noConfusion h)
  | .null, .obj _ => isFalse (fun h => Json.noConfusion h)
  | .bool _, .null => isFalse (fun h => Json.noConfusion h)
  | .bool _, .num _ => isFalse (fun h => Json.noConfusion h)
  | .bool _, .str _ => isFalse (fun h => Json.noConfusion h)
  | .bool _, .arr _ => isFalse (fun h => Json.noConfusion h)
  | .bool _, .obj _ => isFalse (fun h => Json.noConfusion h)
  | .num _, .null => isFalse (fun h => Json.noConfusion h)
  | .num _, .bool _ => isFalse (fun h => Json.noConfusion h)
  | .num _, .str _ => isFalse (fun h => Json.noConfusion h)
  | .num _, .arr _ => isFalse (fun h => Json.noConfusion h)
  | .num _, .obj _ => isFalse (fun h => Json.noConfusion h)
  | .str _, .null => isFalse (fun h => Json.noConfusion h)
  | .str _, .bool _ => isFalse (fun h => Json.noConfusion h)
  | .str _, .num _ => isFalse (fun h => Json.noConfusion h)
  | .str _, .arr _ => isFalse (fun h => Json.noConfusion h)
  | .str _, .obj _ => isFalse (fun h => Json.noConfusion h)
  | .arr _, .null => isFalse (fun h => Json.noConfusion h)
  | .arr _, .bool _ => isFalse (fun h => Json.noConfusion h)
  | .arr _, .num _ => isFalse (fun h => Json.noConfusion h)
  | .arr _, .str _ => isFalse (fun h => Json.noConfusion h)
  | .arr _, .obj _ => isFalse (fun h => Json.noConfusion h)
  | .obj _, .null => isFalse (fun h => Json.noConfusion h)
  | .obj _, .bool _ => isFalse (fun h => Json.noConfusion h)
  | .obj _, .num _ => isFalse (fun h => Json.noConfusion h)
  | .obj _, .str _ => isFalse (fun h => Json.noConfusion h)
  | .obj _, .arr _ => isFalse (fun h => Json.noConfusion h)

/-- Decidable equality on lists of JSON values. -/
def Json.decEqList : (xs ys : List Json) → Decidable (xs = ys)
  | [], [] => isTrue rfl
  | [], _ :: _ => isFalse (fun h => List.noConfusion h)
  | _ :: _, [] => isFalse (fun h => List.noConfusion h)
  | x :: xs, y :: ys =>
    match Json.decEq x y, Json.decEqList xs ys with
    | isTrue h1, isTrue h2 => isTrue (by rw [h1, h2])
    | isFalse h1, _ => isFalse (fun hc => h1 (List.cons.inj hc).1)
    | _, isFalse h2 => isFalse (fun hc => h2 (List.cons.inj hc).2)

/-- Decidable equality on JSON object entry lists. -/
def Json.decEqFields : (xs ys : List (String × Json)) → Decidable (xs = ys)
  | [], [] => isTrue rfl
  | [], _ :: _ => isFalse (fun h => List.noConfusion h)
  | _ :: _, [] => isFalse (fun h => List.noConfusion h)
  | (k, x) :: xs, (k', y) :: ys =>
    if hk : k = k' then
      match Json.decEq x y, Json.decEqFields xs ys with
      | isTrue h1, isTrue h2 => isTrue (by rw [hk, h1, h2])
      | isFalse h1, _ =>
        isFalse (fun hc => h1 (congrArg Prod.snd (List.cons.inj hc).1))
      | _, isFalse h2 => isFalse (fun hc => h2 (List.cons.inj hc).2)
    else
      isFalse (fun hc => hk (congrArg Prod.fst (List.cons.inj hc).1))

end

instance : DecidableEq Json := Json.decEq

mutual

/-- Size of a JSON value (computable and kernel-reducible, used as fuel
for the recursions over the nested inductive). -/
def Json.size : Json → Nat
  | .null => 1
  | .bool _ => 1
  | .num _ => 1
  | .str _ => 1
  | .arr es => 1 + Json.sizeList es
  | .obj fields => 1 + Json.sizeFields fields

/-- Total size of a list of JSON values. -/
def Json.sizeList : List Json → Nat
  | [] => 0
  | v :: vs => Json.size v + Json.sizeList vs

/-- Total size of the values of an entry list. -/
def Json.sizeFields : List (String × Json) → Nat
  | [] => 0
  | kv :: kvs => Json.size kv.2 + Json.sizeFields kvs

end

/-- A JavaScript object: an insertion-ordered association list
(`JsonObject` of the source). -/
abbrev JsonObject := List (String × Json)

/-- Property read `o[k]`: the first field named `k`, if any
(real JavaScript objects have no duplicate keys; the first-match rule keeps
the operations total on arbitrary association lists). -/
def lookupField (o : List (String × Json)) (k : String) : Option Json :=
  (o.find? (fun p => p.1 = k)).map (fun p => p.2)

/-- Key-presence test `k in o`. -/
def containsKey (o : List (String × Json)) (k : String) : Bool :=
  o.any (fun p => p.1 = k)

/-- Property write `o[k] = v`: replaces the first field named `k` in place
(JavaScript assignment keeps the key's insertion position), else appends. -/
def setEntry {α : Type} : List (String × α) → String → α → List (String × α)
  | [], k, v => [(k, v)]
  | p :: rest, k, v => if p.1 = k then (k, v) :: rest else p :: setEntry rest k v

/-- Lookup in a string-keyed `Map` modelled as an association list. -/
def lookupEntry {α : Type} (l : List (String × α)) (k : String) : Option α :=
  (l.find? (fun p => p.1 = k)).map (fun p => p.2)

/-- The whitespace characters `String.prototype.trim` removes that occur
in scope (JavaScript also trims some rarer Unicode spaces; no input in
scope contains them). -/
def jsWhitespace (c : Char) : Bool :=
  c = ' ' ∨ c = '\t' ∨ c = '\n' ∨ c = '\r'

/-- Model of `String.prototype.trim`, computing on the character list so
that the kernel can evaluate it. -/
def jsTrim (s : String) : String :=
  ⟨((s.data.dropWhile jsWhitespace).reverse.dropWhile jsWhitespace).reverse⟩

/-- Model of `String.prototype.startsWith`. -/
def strStartsWith (s p : String) : Bool :=
  p.data.isPrefixOf s.data

/-- Model of `String.prototype.slice(n)` for a non-negative start. -/
def strDrop (s : String) (n : Nat) : String :=
  ⟨s.data.drop n⟩

/-- Lexicographic code-point comparison of character lists (JavaScript
compares strings by UTF-16 code units; on the basic multilingual plane —
where every string in scope lives — the two orders agree). -/
def charListLt : List Char → List Char → Bool
  | [], [] => false
  | [], _ :: _ => true
  | _ :: _, [] => false
  | a :: as, b :: bs =>
    if a.toNat < b.toNat then true
    else if b.toNat < a.toNat then false
    else charListLt as bs

/-- Model of the JavaScript `<` comparison on strings. -/
def strLt (a b : String) : Bool :=
  charListLt a.data b.data

/-- Split a character list at newlines (the source splits on the regular
expression matching an optional carriage return followed by a newline; a
leftover carriage return is removed by the per-line trim that follows). -/
def splitOnNl : List Char → List (List Char)
  | [] => [[]]
  | c :: cs =>
    match splitOnNl cs with
    | [] => [[]]
    | seg :: rest => if c = '\n' then [] :: seg :: rest else (c :: seg) :: rest

/-- Source `isJsonObject`: a value is a non-null, non-array object. -/
def isJsonObject : Json → Bool
  | .obj _ => true
  | _ => false

/-- Source `isInternalKey`: keys starting with `_dlt` are internal
bookkeeping keys. -/
def isInternalKey (key : String) : Bool :=
  strStartsWith key "_dlt"

/-- Source `isMeaningless`: `null` and empty/whitespace-only strings are
dropped during merging.  (JavaScript `String.prototype.trim` and Lean
`String.trim` agree on the whitespace characters appearing in scope.) -/
def isMeaningless : Json → Bool
  | .null => true
  | .str s => (jsTrim s).length = 0
  | _ => false

/-- Source `isMeaninglessMetadata`: same test, used for the freshness
field. -/
def isMeaninglessMetadata : Json → Bool
  | .null => true
  | .str s => (jsTrim s).length = 0
  | _ => false

/-- Fuel-indexed deep copy; the fuel makes the recursion over the nested
inductive structural (and hence kernel-computable), and exhausted fuel
returns the value unchanged, so the fuel never affects the result. -/
def cloneJsonValueF : Nat → Json → Json
  | 0, v => v
  | Nat.succ fuel, v =>
    match v with
    | .arr es => .arr (es.map (cloneJsonValueF fuel))
    | .obj fields => .obj (fields.map (fun kv => (kv.1, cloneJsonValueF fuel kv.2)))
    | w => w

/-- Source `cloneJsonValue` (deep copy).  In the pure model cloning is the
identity, proved below; it is kept in the definitions so that they mirror
the source line by line. -/
def cloneJsonValue (v : Json) : Json := cloneJsonValueF (Json.size v) v

/-- Source `cloneJsonObject`. -/
def cloneJsonObject (o : List (String × Json)) : List (String × Json) :=
  o.map (fun p => (p.1, cloneJsonValue p.2))

/-- Hexadecimal digit, for the control-character escapes of
`JSON.stringify`. -/
def hexDigit (n : Nat) : Char :=
  if n < 10 then Char.ofNat (48 + n) else Char.ofNat (87 + n)

/-- Escape of one character inside a JSON string literal, as produced by
`JSON.stringify`. -/
def escapeJsonChar (c : Char) : String :=
  if c = '"' then "\\\""
  else if c = '\\' then "\\\\"
  else if c = '\x08' then "\\b"
  else if c = '\x0c' then "\\f"
  else if c = '\n' then "\\n"
  else if c = '\r' then "\\r"
  else if c = '\t' then "\\t"
  else if c.toNat < 32 then
    "\\u00" ++ String.singleton (hexDigit (c.toNat / 16)) ++ String.singleton (hexDigit (c.toNat % 16))
  else String.singleton c

/-- The string literal `JSON.stringify` produces for a string value. -/
def jsonQuote (s : String) : String :=
  "\"" ++ String.join (s.data.map escapeJsonChar) ++ "\""

/-- Stable insertion of an entry into a key-sorted list: the entry goes
after every entry whose key is smaller or equal, as the stable
`Array.prototype.sort` of the source does. -/
def insertByKey {α : Type} (x : String × α) : List (String × α) → List (String × α)
  | [] => [x]
  | y :: ys => if strLt y.1 x.1 then y :: insertByKey x ys else x :: y :: ys

/-- Stable sort of object entries by key.  The source sorts with
`keyA.localeCompare(keyB)`; the model compares code points, which is a
fixed total order on keys, and dedup-by-serialization only depends on the
order being a fixed total one. -/
def sortByKey {α : Type} (l : List (String × α)) : List (String × α) :=
  l.foldr insertByKey []

/-- Rendering of one already-stringified object entry. -/
def renderEntry (kv : String × String) : String :=
  jsonQuote kv.1 ++ ":" ++ kv.2

/-- Fuel-indexed canonical serialization; the fuel makes the recursion
over the nested inductive structural (kernel-computable), and
`Nat.succ (sizeOf v)` fuel always suffices (`stableStringify_arr` and
`stableStringify_obj` below recover the fuel-free recursion
equations). -/
def stableStringifyF : Nat → Json → String
  | 0, _ => ""
  | Nat.succ fuel, v =>
    match v with
    | .null => "null"
    | .bool b => if b then "true" else "false"
    | .num n => toString n
    | .str s => jsonQuote s
    | .arr es => "[" ++ String.intercalate "," (es.map (stableStringifyF fuel)) ++ "]"
    | .obj fields =>
        "\x7b" ++
          String.intercalate ","
            ((sortByKey (fields.map (fun kv => (kv.1, stableStringifyF fuel kv.2)))).map renderEntry)
          ++ "\x7d"

/-- Source `stableStringify`: canonical serialization used as the
structural-equality key — object entries are ordered by key before being
rendered.  The source sorts the entries and then stringifies each value;
the model stringifies each value and then sorts, which produces the same
string because the comparator reads only keys and both sorts are stable
(the commutation is proved as `sortByKey_map_snd` below). -/
def stableStringify (v : Json) : String := stableStringifyF (Nat.succ (Json.size v)) v

/-- Source `buildIdKey`: the `Map` key derived from an identity value
(JavaScript `String(value)` on primitives, stable serialization
otherwise). -/
def buildIdKey : Json → String
  | .null => "null"
  | .str s => s
  | .num n => toString n
  | .bool b => if b then "true" else "false"
  | v => stableStringify v

/-- Source `toComparableString`, restricted to proper JSON values (on
`undefined` the source throws; that case is modelled at the call sites). -/
def toComparableString : Json → String
  | .null => ""
  | .str s => s
  | .num n => toString n
  | .bool b => if b then "true" else "false"
  | v => stableStringify v

/-- Leap-year rule of the proleptic Gregorian calendar used by ECMAScript
dates. -/
def isLeapYear (y : Nat) : Bool :=
  y % 4 = 0 && (y % 100 ≠ 0 || y % 400 = 0)

/-- Number of days in a month. -/
def daysInMonth (y m : Nat) : Nat :=
  if m = 2 then (if isLeapYear y then 29 else 28)
  else if m = 4 || m = 6 || m = 9 || m = 11 then 30
  else 31

/-- Days from the civil epoch 1970-01-01 to the given date (standard
days-from-civil computation with floor division). -/
def daysFromCivil (y m d : Int) : Int :=
  let y' := if m ≤ 2 then y - 1 else y
  let era := Int.ediv y' 400
  let yoe := y' - era * 400
  let doy := Int.ediv (153 * (if m > 2 then m - 3 else m + 9) + 2) 5 + d - 1
  let doe := yoe * 365 + Int.ediv yoe 4 - Int.ediv yoe 100 + doy
  era * 146097 + doe - 719468

/-- Digit value of a character. -/
def digitVal (c : Char) : Nat := c.toNat - 48

/-- Models ECMAScript `Date.parse` on the deterministic date-only ISO form
`YYYY-MM-DD` (interpreted as UTC midnight, milliseconds since the epoch);
every other string is treated as unparseable (`NaN`).  The freshness
values in scope are either of this form or strings `Date.parse` rejects;
timezone-less date-times, which `Date.parse` interprets in the local —
hence environment-dependent — timezone, are out of the modelled
fragment. -/
def dateParse (s : String) : Option Int :=
  match s.data with
  | [y1, y2, y3, y4, h1, m1, m2, h2, d1, d2] =>
    if y1.isDigit && y2.isDigit && y3.isDigit && y4.isDigit &&
       h1 = '-' && m1.isDigit && m2.isDigit && h2 = '-' && d1.isDigit && d2.isDigit then
      let y := digitVal y1 * 1000 + digitVal y2 * 100 + digitVal y3 * 10 + digitVal y4
      let m := digitVal m1 * 10 + digitVal m2
      let d := digitVal d1 * 10 + digitVal d2
      if 1 ≤ m && m ≤ 12 && 1 ≤ d && d ≤ daysInMonth y m then
        some (daysFromCivil y m d * 86400000)
      else none
    else none
  | _ => none

/-- Source `toTimestamp`: numbers are their own timestamp (integers are
always finite), strings go through `Date.parse`, everything else is
unparseable. -/
def toTimestamp : Json → Option Int
  | .num n => some n
  | .str s => dateParse s
  | _ => none

/-- String-comparison tail of `compareMetadata` (the code after the
numeric-timestamp test). -/
def compareAsStrings (nextValue currentValue : Json) : Int :=
  let nextComparable := toComparableString nextValue
  let currentComparable := toComparableString currentValue
  if nextComparable = currentComparable then 0
  else if strLt currentComparable nextComparable then 1
  else -1

/-- Source `compareMetadata`: numeric comparison when both values parse as
timestamps and the timestamps differ, otherwise comparison of the
comparable strings. -/
def compareMetadata (nextValue currentValue : Json) : Int :=
  match toTimestamp nextValue, toTimestamp currentValue with
  | some nextTimestamp, some currentTimestamp =>
    if nextTimestamp ≠ currentTimestamp then
      (if currentTimestamp < nextTimestamp then 1 else -1)
    else compareAsStrings nextValue currentValue
  | _, _ => compareAsStrings nextValue currentValue

/-- Source `pickLatestByUpdatedAt`.  When the string fallback is reached
and either entry lacks the `updated_at` key the source calls
`stableStringify(undefined)`, which raises a `TypeError`
(`Object.entries(undefined)`); that exception is modelled as `none`. -/
def pickLatestByUpdatedAt (left right : List (String × Json)) :
    Option (List (String × Json)) :=
  match (lookupField left "updated_at").bind toTimestamp,
        (lookupField right "updated_at").bind toTimestamp with
  | some leftTimestamp, some rightTimestamp =>
    some (if leftTimestamp < rightTimestamp then right else left)
  | _, _ =>
    match lookupField left "updated_at", lookupField right "updated_at" with
    | some leftValue, some rightValue =>
      let leftComparable := toComparableString leftValue
      let rightComparable := toComparableString rightValue
      if leftComparable = rightComparable then some right
      else if strLt leftComparable rightComparable then some right
      else some left
    | _, _ => none

/-- One step of the value-collecting closure `addValue` of `mergeField`.
The JavaScript `Set` named `seen` always holds exactly the stable
serializations of the values collected so far, so membership in it is
checked directly against the collected values. -/
def addValue (values : List Json) (value : Json) : List Json :=
  if isMeaningless value then values
  else if values.any (fun w => stableStringify w = stableStringify value) then values
  else values ++ [cloneJsonValue value]

/-- Feeding one `JsonValue` to `addValue`: arrays are flattened one level
(`existing.forEach(addValue)`), anything else is added directly. -/
def addValueFlat (values : List Json) (value : Json) : List Json :=
  match value with
  | .arr es => es.foldl addValue values
  | v => addValue values v

/-- Source `mergeField`: collect the existing then the incoming values
(flattening one level of arrays), dropping meaningless entries and
de-duplicating by stable serialization in first-seen order; emit a scalar
for exactly one distinct value, the list otherwise, and when nothing was
collected fall back to `existing ?? []` (which is `[]` both for a missing
and for a `null` existing value). -/
def mergeField (existing : Option Json) (incoming : Json) : Json :=
  let values :=
    match existing with
    | none => []
    | some e => addValueFlat [] e
  let values := addValueFlat values incoming
  match values with
  | [] =>
    match existing with
    | none => .arr []
    | some .null => .arr []
    | some e => e
  | [v] => v
  | vs => .arr vs

/-- Source `normalizeRepositoryValue`: a `repo_<attr>` field becomes the
list of its meaningful values. -/
def normalizeRepositoryValue (value : Json) : List Json :=
  match value with
  | .arr es => es.filter (fun item => ¬ isMeaningless item)
  | v => if isMeaningless v then [] else [v]

/-- Source `sanitizeRepositoryObject`: drops internal `_dlt` keys and
clones the rest (field writes keep first-insertion positions). -/
def sanitizeRepositoryObject (value : List (String × Json)) : List (String × Json) :=
  value.foldl
    (fun sanitized kv =>
      if isInternalKey kv.1 then sanitized
      else setEntry sanitized kv.1 (cloneJsonValue kv.2))
    []

/-- Source `normalizeRepositoryCollection`: an explicit `repositories`
value contributes its object elements (sanitized); lone objects count as a
one-element collection; anything else contributes nothing. -/
def normalizeRepositoryCollection (value : Json) : List (List (String × Json)) :=
  match value with
  | .arr es =>
    (es.filterMap (fun item => match item with | .obj fields => some fields | _ => none)).map
      sanitizeRepositoryObject
  | .obj fields => [sanitizeRepositoryObject fields]
  | _ => []

/-- Source `buildRepositoryKey`: dedup key of a repository object — its
trimmed `url` if a non-empty string, else `id`, else `type`, else the
stable serialization of the whole object. -/
def buildRepositoryKey (repository : List (String × Json)) : String :=
  match lookupField repository "url" with
  | some (.str url) =>
    if (jsTrim url).length > 0 then "url:" ++ jsTrim url
    else buildRepositoryKeyNoUrl repository
  | _ => buildRepositoryKeyNoUrl repository
where
  /-- Key fallback when `url` is not a usable string. -/
  buildRepositoryKeyNoUrl (repository : List (String × Json)) : String :=
    match lookupField repository "id" with
    | some (.str id) =>
      if (jsTrim id).length > 0 then "id:" ++ jsTrim id
      else buildRepositoryKeyNoId repository
    | _ => buildRepositoryKeyNoId repository
  /-- Key fallback when `id` is not usable either. -/
  buildRepositoryKeyNoId (repository : List (String × Json)) : String :=
    match lookupField repository "type" with
    | some (.str type) =>
      if (jsTrim type).length > 0 then "type:" ++ jsTrim type
      else "anon:" ++ stableStringify (.obj repository)
    | _ => "anon:" ++ stableStringify (.obj repository)

/-- Accumulator of `extractRepositoryEntries`: the `repo_<attr>` fields,
the explicit repository objects, and the remaining entries. -/
structure ExtractState where
  repoFields : List (String × Json)
  repoObjects : List (List (String × Json))
  otherEntries : List (String × Json)

/-- Source `buildRepositoryObjects`: normalize each `repo_<attr>` field to
its value list, then zip the lists positionally into one object per
position up to the longest list, broadcasting single-valued fields to
every position (`values[index] ?? (values.length === 1 ? values[0] :
undefined)`; the lists never contain `null`, so `??` only triggers out of
range), keeping only non-empty objects. -/
def buildRepositoryObjects (repoFields : List (String × Json)) : List (List (String × Json)) :=
  let normalized : List (String × List Json) :=
    repoFields.foldl
      (fun acc kv =>
        let values := normalizeRepositoryValue kv.2
        if values.length = 0 then acc else setEntry acc kv.1 values)
      []
  let maxLength := normalized.foldl (fun m kv => max m kv.2.length) 0
  (List.range maxLength).filterMap (fun index =>
    let repository :=
      normalized.foldl
        (fun rep kv =>
          let value? :=
            match kv.2.get? index with
            | some v => some v
            | none => if kv.2.length = 1 then kv.2.get? 0 else none
          match value? with
          | some v => rep ++ [(kv.1, cloneJsonValue v)]
          | none => rep)
        []
    if repository.isEmpty then none else some repository)

/-- Source `extractRepositoryEntries`: walk the record's entries in order,
dropping internal keys, routing `repositories` into repository objects,
`repo_<attr>` (with a non-empty attribute name) into the parallel-field
table, and everything else into the ordinary entries. -/
def extractRepositoryEntries (record : List (String × Json)) :
    List (List (String × Json)) × List (String × Json) :=
  let st :=
    record.foldl
      (fun (st : ExtractState) kv =>
        if isInternalKey kv.1 then st
        else if kv.1 = "repositories" then
          { st with repoObjects := st.repoObjects ++ normalizeRepositoryCollection kv.2 }
        else if strStartsWith kv.1 "repo_" then
          let trimmedKey := strDrop kv.1 5
          if trimmedKey.length > 0 then
            { st with repoFields := setEntry st.repoFields trimmedKey kv.2 }
          else st
        else { st with otherEntries := st.otherEntries ++ [kv] })
      ⟨[], [], []⟩
  (st.repoObjects ++ buildRepositoryObjects st.repoFields, st.otherEntries)

/-- The `upsert` closure of `mergeRepositories`: the insertion-ordered
association list models the `byKey` map together with the `order` array. -/
def upsertRepository (st : List (String × List (String × Json))) (value : Json) :
    List (String × List (String × Json)) :=
  match value with
  | .obj fields =>
    let sanitized := sanitizeRepositoryObject fields
    if sanitized.isEmpty then st
    else
      let key := buildRepositoryKey sanitized
      match lookupEntry st key with
      | none => st ++ [(key, cloneJsonObject sanitized)]
      | some existingRepo =>
        let updated :=
          sanitized.foldl
            (fun repo kv => setEntry repo kv.1 (mergeField (lookupField repo kv.1) kv.2))
            existingRepo
        setEntry st key updated
  | _ => st

/-- Source `mergeRepositories`: upsert the existing value's objects, then
the incoming ones, and emit the merged objects in first-seen key order. -/
def mergeRepositories (existing : Option Json) (incoming : List (List (String × Json))) : Json :=
  let st : List (String × List (String × Json)) := []
  let st :=
    match existing with
    | none => st
    | some (.arr es) => es.foldl upsertRepository st
    | some v => upsertRepository st v
  let st := incoming.foldl (fun st o => upsertRepository st (.obj o)) st
  .arr (st.map (fun kv => .obj (cloneJsonObject kv.2)))

/-- Source `mergeGroupRecords`: merge every record of one group field by
field, accumulating repository entries on the side and attaching them
under `repositories` at the end (when any were collected). -/
def mergeGroupRecords (records : List (List (String × Json))) : List (String × Json) :=
  let st :=
    records.foldl
      (fun (st : (List (String × Json)) × List (List (String × Json))) record =>
        let ex := extractRepositoryEntries record
        let merged :=
          ex.2.foldl
            (fun merged kv => setEntry merged kv.1 (mergeField (lookupField merged kv.1) kv.2))
            st.1
        (merged, st.2 ++ ex.1))
      ([], [])
  if st.2.length > 0 then
    setEntry st.1 "repositories" (mergeRepositories (lookupField st.1 "repositories") st.2)
  else st.1

/-- Source `sanitizeFundingRecord`: drops internal `_dlt` keys. -/
def sanitizeFundingRecord (record : List (String × Json)) : List (String × Json) :=
  record.foldl
    (fun sanitized kv =>
      if isInternalKey kv.1 then sanitized
      else setEntry sanitized kv.1 (cloneJsonValue kv.2))
    []

/-- Source `removeFundingInternalKeys`: drops the bookkeeping `id` and
`project_id` keys from an emitted funding entry. -/
def removeFundingInternalKeys (record : List (String × Json)) : List (String × Json) :=
  record.foldl
    (fun sanitized kv =>
      if kv.1 = "id" ∨ kv.1 = "project_id" then sanitized
      else setEntry sanitized kv.1 (cloneJsonValue kv.2))
    []

/-- Source `createFundingKey`: dedup key of a funding entry — its trimmed
`round_id` when that is a non-empty string, else the stable serialization
of the whole sanitized entry. -/
def createFundingKey (roundId : Option Json) (record : List (String × Json)) : String :=
  match roundId with
  | some (.str s) =>
    if (jsTrim s).length > 0 then "round:" ++ jsTrim s
    else "entry:" ++ stableStringify (.obj record)
  | _ => "entry:" ++ stableStringify (.obj record)

/-- The `addEntry` closure of `mergeFundingEntries`; `none` models the
`TypeError` that `pickLatestByUpdatedAt` can raise. -/
def addFundingEntry (st : List (String × List (String × Json))) (value : Json) :
    Option (List (String × List (String × Json))) :=
  match value with
  | .obj fields =>
    let sanitized := sanitizeFundingRecord fields
    if sanitized.isEmpty then some st
    else
      let key := createFundingKey (lookupField sanitized "round_id") sanitized
      match lookupEntry st key with
      | none => some (st ++ [(key, sanitized)])
      | some existingEntry =>
        (pickLatestByUpdatedAt existingEntry sanitized).map (setEntry st key)
  | _ => some st

/-- Source `mergeFundingEntries`: union the existing entries with the
incoming ones under dedup by funding key, keeping insertion order, and
strip the bookkeeping keys from the emitted entries. -/
def mergeFundingEntries (existing : Option Json) (incoming : List Json) :
    Option (List (List (String × Json))) := do
  let st : List (String × List (String × Json)) := []
  let st ←
    match existing with
    | none => some st
    | some (.arr es) => es.foldlM addFundingEntry st
    | some v => addFundingEntry st v
  let st ← incoming.foldlM addFundingEntry st
  some (st.map (fun kv => removeFundingInternalKeys kv.2))

/-- Summary counters of `collapseRecords` (`CollapseSummary` of the
source). -/
structure CollapseSummary where
  totalRecords : Nat
  uniqueIds : Nat
  usedRecords : Nat
  mergedRecords : Nat
  missingId : Nat
  missingMetadata : Nat
  olderRecordsSkipped : Nat
  deriving DecidableEq, Repr

/-- One entry of the `byId` map: the group's current freshness value and
its member records. -/
structure Group where
  metadata : Json
  records : List (List (String × Json))
  deriving DecidableEq

/-- State of the grouping loop of `collapseRecords`. -/
structure CollapseState where
  byId : List (String × Group)
  missingId : Nat
  missingMetadata : Nat
  olderRecordsSkipped : Nat
  deriving DecidableEq

/-- One iteration of the grouping loop of `collapseRecords`: defective
records bump a counter, the first record of an identity opens its group,
and later records replace the group (strictly fresher), join it (equal
freshness) or are skipped (strictly older).  The source tests `idField in
record` and then reads `record[idField]`; presence and a successful lookup
coincide. -/
def collapseStep (idField metadataField : String) (st : CollapseState) (record : Json) :
    CollapseState :=
  match record with
  | .obj fields =>
    match lookupField fields idField with
    | none => { st with missingId := st.missingId + 1 }
    | some idValue =>
      match lookupField fields metadataField with
      | none => { st with missingMetadata := st.missingMetadata + 1 }
      | some metadataValue =>
        if isMeaninglessMetadata metadataValue then
          { st with missingMetadata := st.missingMetadata + 1 }
        else
          let idKey := buildIdKey idValue
          match lookupEntry st.byId idKey with
          | none => { st with byId := st.byId ++ [(idKey, ⟨metadataValue, [fields]⟩)] }
          | some existing =>
            let comparison := compareMetadata metadataValue existing.metadata
            if comparison > 0 then
              { st with
                olderRecordsSkipped := st.olderRecordsSkipped + existing.records.length,
                byId := setEntry st.byId idKey ⟨metadataValue, [fields]⟩ }
            else if comparison = 0 then
              { st with
                byId := setEntry st.byId idKey ⟨existing.metadata, existing.records ++ [fields]⟩ }
            else { st with olderRecordsSkipped := st.olderRecordsSkipped + 1 }
  | _ => { st with missingId := st.missingId + 1 }

/-- Result of `collapseRecords`. -/
structure CollapseResult where
  collapsed : List (List (String × Json))
  summary : CollapseSummary
  deriving DecidableEq

/-- Source `collapseRecords`: group the records by identity key keeping
only the freshest group per identity, merge each group, and report the
summary counters. -/
def collapseRecords (records : List Json) (idField metadataField : String) : CollapseResult :=
  let st := records.foldl (collapseStep idField metadataField) ⟨[], 0, 0, 0⟩
  let collapsed := st.byId.map (fun kv => mergeGroupRecords kv.2.records)
  let usedRecords := st.byId.foldl (fun n kv => n + kv.2.records.length) 0
  { collapsed := collapsed,
    summary :=
      ⟨records.length, collapsed.length, usedRecords, usedRecords - collapsed.length,
        st.missingId, st.missingMetadata, st.olderRecordsSkipped⟩ }

/-- Source `parseRecords`, parameterized by the runtime JSON parser
(`none` models a `JSON.parse` exception): empty input is no records; a
text parsing as a JSON array yields its elements; other valid JSON is the
`Expected a JSON array or newline-delimited JSON objects` error; on a
parse failure each non-blank line must parse as a JSON object (NDJSON),
any line failure or non-object line being fatal.  The `none` result models
the error reported to the caller. -/
def parseRecords (jsonParse : String → Option Json) (raw : String) : Option (List Json) :=
  let trimmed := jsTrim raw
  if trimmed.length = 0 then some []
  else
    match jsonParse trimmed with
    | some (.arr elems) => some elems
    | some _ => none
    | none =>
      let lines := ((splitOnNl trimmed.data).map (fun cs => jsTrim ⟨cs⟩)).filter
        (fun line => line.length > 0)
      match lines.mapM jsonParse with
      | none => none
      | some records => if records.all isJsonObject then some records else none

/-! A small executable model of `JSON.parse`, used to instantiate
`parseRecords` on concrete inputs.  It covers the fragment of JSON the
relevant inputs live in: `null`, booleans, integer numbers, strings
without escape sequences, arrays and objects; anything outside the
fragment is treated as a parse failure, and every concrete input the
theorems below feed it lies inside the fragment. -/

/-- Opening brace character. -/
def lbrace : Char := Char.ofNat 123

/-- Closing brace character. -/
def rbrace : Char := Char.ofNat 125

/-- Skip JSON whitespace. -/
def skipWs : List Char → List Char
  | c :: cs => if c = ' ' ∨ c = '\t' ∨ c = '\n' ∨ c = '\r' then skipWs cs else c :: cs
  | [] => []

/-- Body of a JSON string literal after the opening quote (no escapes in
the modelled fragment). -/
def parseStringBody : List Char → Option (String × List Char)
  | [] => none
  | c :: cs =>
    if c = '"' then some ("", cs)
    else if c = '\\' then none
    else (parseStringBody cs).map (fun r => (String.singleton c ++ r.1, r.2))

/-- Split off a maximal run of leading digits. -/
def spanDigits : List Char → List Char × List Char
  | [] => ([], [])
  | c :: cs =>
    if c.isDigit then
      let r := spanDigits cs
      (c :: r.1, r.2)
    else ([], c :: cs)

/-- Numeric value of a digit run. -/
def digitsToNat (ds : List Char) : Nat :=
  ds.foldl (fun n c => n * 10 + digitVal c) 0

mutual

/-- Fuel-indexed recursive-descent parser for one JSON value. -/
def parseValueF : Nat → List Char → Option (Json × List Char)
  | 0, _ => none
  | Nat.succ fuel, cs =>
    match skipWs cs with
    | [] => none
    | c :: rest =>
      if c = 'n' then
        match rest with
        | 'u' :: 'l' :: 'l' :: rs => some (.null, rs)
        | _ => none
      else if c = 't' then
        match rest with
        | 'r' :: 'u' :: 'e' :: rs => some (.bool true, rs)
        | _ => none
      else if c = 'f' then
        match rest with
        | 'a' :: 'l' :: 's' :: 'e' :: rs => some (.bool false, rs)
        | _ => none
      else if c = '"' then (parseStringBody rest).map (fun r => (.str r.1, r.2))
      else if c = '-' then
        let r := spanDigits rest
        if r.1.isEmpty then none else some (.num (-(digitsToNat r.1 : Int)), r.2)
      else if c.isDigit then
        let r := spanDigits (c :: rest)
        some (.num (digitsToNat r.1 : Int), r.2)
      else if c = '[' then
        match skipWs rest with
        | ']' :: rs => some (.arr [], rs)
        | cs' => parseArrayItemsF fuel cs' []
      else if c = lbrace then
        match skipWs rest with
        | d :: rs =>
          if d = rbrace then some (.obj [], rs)
          else parseObjectItemsF fuel (d :: rs) []
        | [] => none
      else none

/-- Comma-separated array elements, then `]`. -/
def parseArrayItemsF : Nat → List Char → List Json → Option (Json × List Char)
  | 0, _, _ => none
  | Nat.succ fuel, cs, acc =>
    match parseValueF fuel cs with
    | none => none
    | some (v, rs) =>
      match skipWs rs with
      | ',' :: rs2 => parseArrayItemsF fuel rs2 (acc ++ [v])
      | ']' :: rs2 => some (.arr (acc ++ [v]), rs2)
      | _ => none

/-- Comma-separated `"key": value` members, then the closing brace. -/
def parseObjectItemsF : Nat → List Char → List (String × Json) → Option (Json × List Char)
  | 0, _, _ => none
  | Nat.succ fuel, cs, acc =>
    match skipWs cs with
    | '"' :: rest =>
      match parseStringBody rest with
      | none => none
      | some (k, rs) =>
        match skipWs rs with
        | ':' :: rs2 =>
          match parseValueF fuel rs2 with
          | none => none
          | some (v, rs3) =>
            match skipWs rs3 with
            | ',' :: rs4 => parseObjectItemsF fuel rs4 (acc ++ [(k, v)])
            | d :: rs4 => if d = rbrace then some (.obj (acc ++ [(k, v)]), rs4) else none
            | [] => none
        | _ => none
    | _ => none

end

/-- Executable model of `JSON.parse` on the fragment described above: a
complete parse of the whole input (`none` models a thrown
`SyntaxError`). -/
def jsonParseModel (s : String) : Option Json :=
  match parseValueF (4 * s.length + 8) s.data with
  | some (v, rest) => if skipWs rest = [] then some v else none
  | none => none

/-! Spec-side restatement of the field-merge policy, used for the
refinement claim: it follows the specification's wording (collect,
flatten one level, drop empty, de-duplicate by stable serialization in
first-seen order, scalar for exactly one survivor, previous value —
defaulting to an empty list — when none survive). -/

/-- One level of flattening of an optional value into the list of values
it contributes. -/
def flattenOneLevel : Option Json → List Json
  | none => []
  | some (.arr es) => es
  | some v => [v]

/-- First-seen-order de-duplication by stable serialization. -/
def dedupByStableKey (seen : List String) : List Json → List Json
  | [] => []
  | v :: vs =>
    let key := stableStringify v
    if seen.contains key then dedupByStableKey seen vs
    else v :: dedupByStableKey (key :: seen) vs

/-- The field-merge policy as the specification states it. -/
def mergeFieldSpec (existing : Option Json) (incoming : Json) : Json :=
  let collected :=
    (flattenOneLevel existing ++ flattenOneLevel (some incoming)).filter
      (fun v => ¬ isMeaningless v)
  match dedupByStableKey [] collected with
  | [] =>
    match existing with
    | none => .arr []
    | some e => e
  | [v] => v
  | vs => .arr vs

/-- Deep structural equality up to re-ordering of object keys: two values
are related when they differ only by permutations of (duplicate-free)
object entry lists, at any depth. -/
inductive KeyPermEquiv : Json → Json → Prop where
  | null : KeyPermEquiv .null .null
  | bool (b : Bool) : KeyPermEquiv (.bool b) (.bool b)
  | num (n : Int) : KeyPermEquiv (.num n) (.num n)
  | str (s : String) : KeyPermEquiv (.str s) (.str s)
  | arr (es fs : List Json) (hlen : es.length = fs.length)
      (h : ∀ p ∈ es.zip fs, KeyPermEquiv p.1 p.2) : KeyPermEquiv (.arr es) (.arr fs)
  | obj (l lmid l' : List (String × Json)) (hnd : (l.map Prod.fst).Nodup)
      (hperm : l.Perm lmid) (hlen : lmid.length = l'.length)
      (hkeys : ∀ p ∈ lmid.zip l', p.1.1 = p.2.1)
      (h : ∀ p ∈ lmid.zip l', KeyPermEquiv p.1.2 p.2.2) :
      KeyPermEquiv (.obj l) (.obj l')

/-- The per-index value choice of `buildRepositoryObjects`: the value at
the index, else the single value broadcast, else nothing. -/
def repoPickValue (index : Nat) (kv : String × List Json) : Option Json :=
  match kv.2.get? index with
  | some v => some v
  | none => if kv.2.length = 1 then kv.2.get? 0 else none

/-- One field contribution of `buildRepositoryObjects` at an index. -/
def repoPick (index : Nat) (kv : String × List Json) : Option (String × Json) :=
  (repoPickValue index kv).map (fun v => (kv.1, cloneJsonValue v))

/-- The `normalized` record of `buildRepositoryObjects`: each field with
its nonempty normalized value list, in field order. -/
def repoNormalizeFields (repoFields : List (String × Json)) : List (String × List Json) :=
  repoFields.filterMap (fun kv =>
    let values := normalizeRepositoryValue kv.2
    if values.length = 0 then none else some (kv.1, values))

/-! Basic lemmas about the association-list operations. -/

@[simp]
theorem lookupEntry_nil {α : Type} (k : String) : lookupEntry ([] : List (String × α)) k = none :=
  rfl

theorem lookupEntry_cons {α : Type} (p : String × α) (l : List (String × α)) (k : String) :
    lookupEntry (p :: l) k = if p.1 = k then some p.2 else lookupEntry l k := by
  by_cases h : p.1 = k <;> simp [lookupEntry, List.find?_cons, h]

@[simp]
theorem lookupEntry_cons_self {α : Type} (k : String) (v : α) (l : List (String × α)) :
    lookupEntry ((k, v) :: l) k = some v := by
  simp [lookupEntry_cons]

theorem lookupEntry_append {α : Type} (l l' : List (String × α)) (k : String) :
    lookupEntry (l ++ l') k =
      match lookupEntry l k with
      | some v => some v
      | none => lookupEntry l' k := by
  induction l with
  | nil => simp
  | cons p rest ih =>
    by_cases h : p.1 = k <;> simp [lookupEntry_cons, h, ih]

theorem lookupField_eq_lookupEntry (o : List (String × Json)) (k : String) :
    lookupField o k = lookupEntry o k := rfl

theorem containsKey_iff_lookup (o : List (String × Json)) (k : String) :
    containsKey o k = (lookupField o k).isSome := by
  induction o with
  | nil => rfl
  | cons p rest ih =>
    obtain ⟨k', v⟩ := p
    by_cases h : k' = k
    · subst h; simp [containsKey, lookupField, List.find?_cons]
    · simp only [containsKey, List.any_cons, lookupField_eq_lookupEntry, lookupEntry_cons, h,
        if_false, decide_eq_true_eq] at *
      simpa [h] using ih

theorem lookupEntry_setEntry_self {α : Type} (l : List (String × α)) (k : String) (v : α) :
    lookupEntry (setEntry l k v) k = some v := by
  induction l with
  | nil => simp [setEntry]
  | cons p rest ih =>
    by_cases h : p.1 = k
    · simp [setEntry, h]
    · simp [setEntry, h, lookupEntry_cons, ih]

theorem lookupEntry_setEntry_ne {α : Type} (l : List (String × α)) (k k' : String) (v : α)
    (h : k' ≠ k) : lookupEntry (setEntry l k v) k' = lookupEntry l k' := by
  have hk : ¬ (k = k') := by exact fun hc => h hc.symm
  induction l with
  | nil => simp [setEntry, lookupEntry_cons, hk]
  | cons p rest ih =>
    by_cases hp : p.1 = k
    · subst hp
      simp [setEntry, lookupEntry_cons, hk]
    · simp [setEntry, hp, lookupEntry_cons, ih]

theorem mem_setEntry {α : Type} (l : List (String × α)) (k : String) (v : α) (p : String × α)
    (h : p ∈ setEntry l k v) : p = (k, v) ∨ p ∈ l := by
  induction l with
  | nil => simpa [setEntry] using h
  | cons q rest ih =>
    by_cases hq : q.1 = k
    · simp only [setEntry, hq, if_true, List.mem_cons] at h
      rcases h with h | h
      · exact Or.inl h
      · exact Or.inr (List.mem_cons_of_mem _ h)
    · simp only [setEntry, hq, if_false, List.mem_cons] at h
      rcases h with h | h
      · exact Or.inr (by simp [h])
      · rcases ih h with h' | h'
        · exact Or.inl h'
        · exact Or.inr (List.mem_cons_of_mem _ h')

theorem length_setEntry_of_lookup {α : Type} (l : List (String × α)) (k : String) (v g : α)
    (h : lookupEntry l k = some g) : (setEntry l k v).length = l.length := by
  induction l with
  | nil => simp at h
  | cons p rest ih =>
    by_cases hp : p.1 = k
    · simp [setEntry, hp]
    · obtain ⟨k', v'⟩ := p
      simp only [lookupEntry_cons, hp, if_false] at h
      simp [setEntry, hp, ih h]

theorem snd_map_sum_setEntry {α : Type} (f : α → Nat) (l : List (String × α)) (k : String)
    (v g : α) (h : lookupEntry l k = some g) :
    ((setEntry l k v).map (fun p => f p.2)).sum + f g = (l.map (fun p => f p.2)).sum + f v := by
  induction l with
  | nil => simp at h
  | cons p rest ih =>
    obtain ⟨k', g'⟩ := p
    by_cases hp : k' = k
    · subst hp
      simp only [lookupEntry_cons_self, Option.some.injEq] at h
      subst h
      simp [setEntry]
      omega
    · simp only [lookupEntry_cons, hp, if_false] at h
      have := ih h
      simp only [setEntry, hp, if_false, List.map_cons, List.sum_cons]
      omega

/-! Cloning is the identity in the pure model, at every fuel. -/

theorem cloneJsonValueF_eq (fuel : Nat) : ∀ (v : Json), cloneJsonValueF fuel v = v := by
  induction fuel with
  | zero => intro v; rfl
  | succ f ih =>
    intro v
    cases v with
    | arr es =>
      show Json.arr (es.map (cloneJsonValueF f)) = Json.arr es
      rw [List.map_congr_left (fun e _ => ih e)]
      simp
    | obj fields =>
      show Json.obj (fields.map (fun kv => (kv.1, cloneJsonValueF f kv.2))) = Json.obj fields
      rw [List.map_congr_left (fun kv _ => by rw [ih kv.2])]
      simp
    | null => rfl
    | bool b => rfl
    | num n => rfl
    | str s => rfl

@[simp]
theorem cloneJsonValue_eq (v : Json) : cloneJsonValue v = v :=
  cloneJsonValueF_eq _ v

@[simp]
theorem cloneJsonObject_eq (o : List (String × Json)) : cloneJsonObject o = o := by
  unfold cloneJsonObject
  rw [List.map_congr_left (fun p _ => by rw [cloneJsonValue_eq])]
  simp

/-! Fuel-independence and recursion equations of the serialization. -/

theorem Json.size_pos (v : Json) : 0 < Json.size v := by
  cases v <;> simp [Json.size]

theorem Json.size_le_sizeList {e : Json} : ∀ {es : List Json}, e ∈ es →
    Json.size e ≤ Json.sizeList es := by
  intro es h
  induction es with
  | nil => cases h
  | cons v vs ih =>
    rcases List.mem_cons.mp h with h' | h'
    · subst h'
      simp [Json.sizeList]
    · have := ih h'
      simp [Json.sizeList]
      omega

theorem Json.size_le_sizeFields {kv : String × Json} : ∀ {fields : List (String × Json)},
    kv ∈ fields → Json.size kv.2 ≤ Json.sizeFields fields := by
  intro fields h
  induction fields with
  | nil => cases h
  | cons p ps ih =>
    rcases List.mem_cons.mp h with h' | h'
    · subst h'
      simp [Json.sizeFields]
    · have := ih h'
      simp [Json.sizeFields]
      omega

theorem stableStringifyF_congr :
    ∀ (fuel : Nat) (v : Json) (fuel' : Nat), Json.size v ≤ fuel → Json.size v ≤ fuel' →
      stableStringifyF fuel v = stableStringifyF fuel' v := by
  intro fuel
  induction fuel with
  | zero =>
    intro v fuel' hv _
    exact absurd hv (by have := Json.size_pos v; omega)
  | succ f ih =>
    intro v fuel' hv hv'
    match fuel' with
    | 0 => exact absurd hv' (by have := Json.size_pos v; omega)
    | Nat.succ f' =>
      cases v with
      | null => rfl
      | bool b => rfl
      | num n => rfl
      | str s => rfl
      | arr es =>
        have hes : Json.sizeList es ≤ f := by simp [Json.size] at hv; omega
        have hes' : Json.sizeList es ≤ f' := by simp [Json.size] at hv'; omega
        have hmap : es.map (stableStringifyF f) = es.map (stableStringifyF f') :=
          List.map_congr_left (fun e he => ih e f'
            (by have := Json.size_le_sizeList he; omega)
            (by have := Json.size_le_sizeList he; omega))
        show "[" ++ String.intercalate "," (es.map (stableStringifyF f)) ++ "]" =
          "[" ++ String.intercalate "," (es.map (stableStringifyF f')) ++ "]"
        rw [hmap]
      | obj fields =>
        have hfs : Json.sizeFields fields ≤ f := by simp [Json.size] at hv; omega
        have hfs' : Json.sizeFields fields ≤ f' := by simp [Json.size] at hv'; omega
        have hmap : fields.map (fun kv => (kv.1, stableStringifyF f kv.2)) =
            fields.map (fun kv => (kv.1, stableStringifyF f' kv.2)) :=
          List.map_congr_left (fun kv hkv => by
            have hb := Json.size_le_sizeFields hkv
            rw [ih kv.2 f' (by omega) (by omega)])
        show "\x7b" ++ String.intercalate ","
            ((sortByKey (fields.map (fun kv => (kv.1, stableStringifyF f kv.2)))).map renderEntry)
            ++ "\x7d" =
          "\x7b" ++ String.intercalate ","
            ((sortByKey (fields.map (fun kv => (kv.1, stableStringifyF f' kv.2)))).map renderEntry)
            ++ "\x7d"
        rw [hmap]

theorem stableStringify_arr (es : List Json) :
    stableStringify (.arr es) =
      "[" ++ String.intercalate "," (es.map stableStringify) ++ "]" := by
  have hmap : es.map (stableStringifyF (Json.size (Json.arr es))) = es.map stableStringify :=
    List.map_congr_left (fun e he => stableStringifyF_congr _ e (Nat.succ (Json.size e))
      (by have := Json.size_le_sizeList he; simp [Json.size]; omega) (by omega))
  show "[" ++ String.intercalate "," (es.map (stableStringifyF (Json.size (Json.arr es)))) ++ "]" = _
  rw [hmap]

theorem stableStringify_obj (fields : List (String × Json)) :
    stableStringify (.obj fields) =
      "\x7b" ++ String.intercalate ","
        ((sortByKey (fields.map (fun kv => (kv.1, stableStringify kv.2)))).map renderEntry)
        ++ "\x7d" := by
  have hmap : fields.map (fun kv => (kv.1, stableStringifyF (Json.size (Json.obj fields)) kv.2)) =
      fields.map (fun kv => (kv.1, stableStringify kv.2)) :=
    List.map_congr_left (fun kv hkv => by
      have hb := Json.size_le_sizeFields hkv
      rw [stableStringifyF_congr _ kv.2 (Nat.succ (Json.size kv.2))
        (by simp [Json.size]; omega) (by omega)]
      rfl)
  show "\x7b" ++ String.intercalate ","
      ((sortByKey (fields.map (fun kv => (kv.1, stableStringifyF (Json.size (Json.obj fields)) kv.2)))).map
        renderEntry) ++ "\x7d" = _
  rw [hmap]

/-! Antisymmetry of the freshness comparison. -/

theorem charListLt_irrefl : ∀ (as : List Char), charListLt as as = false := by
  intro as
  induction as with
  | nil => rfl
  | cons a t ih => simp [charListLt, ih]

theorem charListLt_asymm : ∀ (as bs : List Char), charListLt as bs = true →
    charListLt bs as = false := by
  intro as
  induction as with
  | nil =>
    intro bs h
    cases bs with
    | nil => simp [charListLt] at h
    | cons b u => rfl
  | cons a t ih =>
    intro bs h
    cases bs with
    | nil => simp [charListLt] at h
    | cons b u =>
      simp only [charListLt] at h ⊢
      by_cases h1 : a.toNat < b.toNat
      · have h2 : ¬ b.toNat < a.toNat := by omega
        simp [h1, h2]
      · by_cases h2 : b.toNat < a.toNat
        · simp [h1, h2] at h
        · simp only [h1, h2, if_false] at h ⊢
          exact ih u h

theorem charListLt_connex : ∀ (as bs : List Char), charListLt as bs = false →
    charListLt bs as = false → as = bs := by
  intro as
  induction as with
  | nil =>
    intro bs h1 _
    cases bs with
    | nil => rfl
    | cons b u => simp [charListLt] at h1
  | cons a t ih =>
    intro bs h1 h2
    cases bs with
    | nil => simp [charListLt] at h2
    | cons b u =>
      simp only [charListLt] at h1 h2
      by_cases hab : a.toNat < b.toNat
      · simp [hab] at h1
      · by_cases hba : b.toNat < a.toNat
        · simp [hab, hba] at h2
        · have htn : a.toNat = b.toNat := by omega
          have hac : a = b := Char.ext (UInt32.toNat.inj htn)
          simp only [hab, hba, if_false] at h1 h2
          rw [hac, ih u h1 h2]

theorem charListLt_trans : ∀ (as bs cs : List Char), charListLt as bs = true →
    charListLt bs cs = true → charListLt as cs = true := by
  intro as
  induction as with
  | nil =>
    intro bs cs h1 h2
    cases bs with
    | nil => simp [charListLt] at h1
    | cons b u =>
      cases cs with
      | nil => simp [charListLt] at h2
      | cons c w => rfl
  | cons a t ih =>
    intro bs cs h1 h2
    cases bs with
    | nil => simp [charListLt] at h1
    | cons b u =>
      cases cs with
      | nil => simp [charListLt] at h2
      | cons c w =>
        simp only [charListLt] at h1 h2 ⊢
        by_cases hab : a.toNat < b.toNat
        · by_cases hbc : b.toNat < c.toNat
          · have : a.toNat < c.toNat := by omega
            simp [this]
          · by_cases hcb : c.toNat < b.toNat
            · simp [hab, hbc, hcb] at h2
            · have : a.toNat < c.toNat := by omega
              simp [this]
        · by_cases hba : b.toNat < a.toNat
          · simp [hab, hba] at h1
          · have hab' : a.toNat = b.toNat := by omega
            by_cases hbc : b.toNat < c.toNat
            · have : a.toNat < c.toNat := by omega
              simp [this]
            · by_cases hcb : c.toNat < b.toNat
              · simp [hbc, hcb] at h2
              · have h1' : charListLt t u = true := by simpa [hab, hba] using h1
                have h2' : charListLt u w = true := by simpa [hbc, hcb] using h2
                have hac : ¬ a.toNat < c.toNat := by omega
                have hca : ¬ c.toNat < a.toNat := by omega
                simp [hac, hca, ih u w h1' h2']

theorem strLt_irrefl (a : String) : strLt a a = false :=
  charListLt_irrefl a.data

theorem strLt_asymm {a b : String} (h : strLt a b = true) : strLt b a = false :=
  charListLt_asymm a.data b.data h

theorem strLt_connex {a b : String} (h1 : strLt a b = false) (h2 : strLt b a = false) :
    a = b := by
  cases a with
  | mk da =>
    cases b with
    | mk db => exact congrArg String.mk (charListLt_connex da db h1 h2)

theorem strLt_trans {a b c : String} (h1 : strLt a b = true) (h2 : strLt b c = true) :
    strLt a c = true :=
  charListLt_trans a.data b.data c.data h1 h2

theorem compareAsStrings_antisymm (a b : Json) : compareAsStrings a b = -compareAsStrings b a := by
  unfold compareAsStrings
  by_cases heq : toComparableString a = toComparableString b
  · simp [heq]
  · have hne' : ¬ toComparableString b = toComparableString a := fun h => heq h.symm
    by_cases hlt : strLt (toComparableString b) (toComparableString a) = true
    · simp [heq, hne', hlt, strLt_asymm hlt]
    · have hlt2 : strLt (toComparableString a) (toComparableString b) = true := by
        by_contra hc
        exact heq (strLt_connex (Bool.not_eq_true _ ▸ hc) (Bool.not_eq_true _ ▸ hlt))
      simp [heq, hne', hlt, hlt2, strLt_asymm hlt2]

theorem compareMetadata_antisymm (a b : Json) : compareMetadata a b = -compareMetadata b a := by
  unfold compareMetadata
  rcases hta : toTimestamp a with _ | ta <;> rcases htb : toTimestamp b with _ | tb
  · exact compareAsStrings_antisymm a b
  · exact compareAsStrings_antisymm a b
  · exact compareAsStrings_antisymm a b
  · rcases lt_trichotomy ta tb with h | h | h
    · simp [h, h.ne, h.ne', not_lt_of_lt h]
    · subst h
      simp [compareAsStrings_antisymm a b]
    · simp [h, h.ne, h.ne', not_lt_of_lt h]

theorem compareMetadata_of_ne_timestamps (v2 v1 : Json) (t2 t1 : Int)
    (h2 : toTimestamp v2 = some t2) (h1 : toTimestamp v1 = some t1) (h : t2 ≠ t1) :
    compareMetadata v2 v1 = if t1 < t2 then 1 else -1 := by
  unfold compareMetadata
  rw [h2, h1]
  simp [h]

theorem compareMetadata_of_eq_timestamps (v2 v1 : Json) (t : Int)
    (h2 : toTimestamp v2 = some t) (h1 : toTimestamp v1 = some t) :
    compareMetadata v2 v1 = compareAsStrings v2 v1 := by
  unfold compareMetadata
  rw [h2, h1]
  simp

theorem compareAsStrings_eq_zero_iff (a b : Json) :
    compareAsStrings a b = 0 ↔ toComparableString a = toComparableString b := by
  unfold compareAsStrings
  simp only []
  split_ifs with h1 h2
  · simp [h1]
  · simp [h1]
  · simp [h1]

/-! Keys of merged records. -/

theorem containsKey_iff_exists (o : List (String × Json)) (k : String) :
    containsKey o k = true ↔ ∃ p ∈ o, p.1 = k := by
  simp [containsKey, List.any_eq_true]

theorem containsKey_setEntry_elim (m : List (String × Json)) (k : String) (v : Json)
    (k' : String) (h : containsKey (setEntry m k v) k' = true) :
    k' = k ∨ containsKey m k' = true := by
  rw [containsKey_iff_exists] at h
  obtain ⟨p, hp, hpk⟩ := h
  rcases mem_setEntry m k v p hp with h' | h'
  · subst h'
    exact Or.inl hpk.symm
  · exact Or.inr ((containsKey_iff_exists m k').mpr ⟨p, h', hpk⟩)

theorem containsKey_foldl_merge_elim (entries : List (String × Json))
    (m0 : List (String × Json)) (k : String)
    (h : containsKey
        (entries.foldl (fun merged kv => setEntry merged kv.1 (mergeField (lookupField merged kv.1) kv.2)) m0)
        k = true) :
    containsKey m0 k = true ∨ ∃ kv ∈ entries, kv.1 = k := by
  induction entries generalizing m0 with
  | nil => exact Or.inl h
  | cons e rest ih =>
    simp only [List.foldl_cons] at h
    rcases ih _ h with h' | h'
    · rcases containsKey_setEntry_elim _ _ _ _ h' with h'' | h''
      · exact Or.inr ⟨e, List.mem_cons_self e rest, h''.symm⟩
      · exact Or.inl h''
    · obtain ⟨kv, hkv, hk⟩ := h'
      exact Or.inr ⟨kv, List.mem_cons_of_mem _ hkv, hk⟩

theorem extract_otherEntries_spec (record : List (String × Json)) :
    ∀ kv ∈ (extractRepositoryEntries record).2,
      kv ∈ record ∧ isInternalKey kv.1 = false ∧ kv.1 ≠ "repositories" ∧
        strStartsWith kv.1 "repo_" = false := by
  have main : ∀ (entries : List (String × Json)) (st0 : ExtractState),
      ∀ kv ∈ (entries.foldl
          (fun (st : ExtractState) kv =>
            if isInternalKey kv.1 then st
            else if kv.1 = "repositories" then
              { st with repoObjects := st.repoObjects ++ normalizeRepositoryCollection kv.2 }
            else if strStartsWith kv.1 "repo_" then
              let trimmedKey := strDrop kv.1 5
              if trimmedKey.length > 0 then
                { st with repoFields := setEntry st.repoFields trimmedKey kv.2 }
              else st
            else { st with otherEntries := st.otherEntries ++ [kv] })
          st0).otherEntries,
        kv ∈ st0.otherEntries ∨
          (kv ∈ entries ∧ isInternalKey kv.1 = false ∧ kv.1 ≠ "repositories" ∧
            strStartsWith kv.1 "repo_" = false) := by
    intro entries
    induction entries with
    | nil => intro st0 kv h; exact Or.inl h
    | cons e rest ih =>
      intro st0 kv h
      simp only [List.foldl_cons] at h
      by_cases h1 : isInternalKey e.1
      · rw [if_pos h1] at h
        rcases ih st0 kv h with h' | h'
        · exact Or.inl h'
        · exact Or.inr ⟨List.mem_cons_of_mem _ h'.1, h'.2⟩
      · rw [if_neg h1] at h
        by_cases h2 : e.1 = "repositories"
        · rw [if_pos h2] at h
          rcases ih _ kv h with h' | h'
          · exact Or.inl h'
          · exact Or.inr ⟨List.mem_cons_of_mem _ h'.1, h'.2⟩
        · rw [if_neg h2] at h
          by_cases h3 : strStartsWith e.1 "repo_"
          · rw [if_pos h3] at h
            by_cases h4 : (strDrop e.1 5).length > 0
            · rw [if_pos h4] at h
              rcases ih _ kv h with h' | h'
              · exact Or.inl h'
              · exact Or.inr ⟨List.mem_cons_of_mem _ h'.1, h'.2⟩
            · rw [if_neg h4] at h
              rcases ih _ kv h with h' | h'
              · exact Or.inl h'
              · exact Or.inr ⟨List.mem_cons_of_mem _ h'.1, h'.2⟩
          · rw [if_neg h3] at h
            rcases ih _ kv h with h' | h'
            · simp only [List.mem_append, List.mem_singleton] at h'
              rcases h' with h' | h'
              · exact Or.inl h'
              · subst h'
                exact Or.inr ⟨List.mem_cons_self _ _,
                  Bool.not_eq_true _ ▸ eq_false_of_ne_true (by simpa using h1), h2,
                  eq_false_of_ne_true (by simpa using h3)⟩
            · exact Or.inr ⟨List.mem_cons_of_mem _ h'.1, h'.2⟩
  intro kv h
  have := main record ⟨[], [], []⟩ kv (by exact h)
  rcases this with h' | h'
  · simp at h'
  · exact h'

theorem mergeGroupRecords_keys (records : List (List (String × Json))) (k : String)
    (h : containsKey (mergeGroupRecords records) k = true) :
    k = "repositories" ∨
      (isInternalKey k = false ∧ strStartsWith k "repo_" = false ∧ k ≠ "repositories" ∧
        ∃ r ∈ records, containsKey r k = true) := by
  have main : ∀ (rs : List (List (String × Json)))
      (st0 : (List (String × Json)) × List (List (String × Json))),
      ∀ k, containsKey
          ((rs.foldl
            (fun (st : (List (String × Json)) × List (List (String × Json))) record =>
              let ex := extractRepositoryEntries record
              let merged :=
                ex.2.foldl
                  (fun merged kv => setEntry merged kv.1 (mergeField (lookupField merged kv.1) kv.2))
                  st.1
              (merged, st.2 ++ ex.1))
            st0).1)
          k = true →
        containsKey st0.1 k = true ∨
          (isInternalKey k = false ∧ strStartsWith k "repo_" = false ∧ k ≠ "repositories" ∧
            ∃ r ∈ rs, containsKey r k = true) := by
    intro rs
    induction rs with
    | nil => intro st0 k h; exact Or.inl h
    | cons r rest ih =>
      intro st0 k h
      simp only [List.foldl_cons] at h
      rcases ih _ k h with h' | h'
      · rcases containsKey_foldl_merge_elim _ _ _ h' with h'' | h''
        · exact Or.inl h''
        · obtain ⟨kv, hkv, hk⟩ := h''
          have spec := extract_otherEntries_spec r kv hkv
          subst hk
          exact Or.inr ⟨spec.2.1, spec.2.2.2, spec.2.2.1,
            r, List.mem_cons_self _ _, (containsKey_iff_exists _ _).mpr ⟨kv, spec.1, rfl⟩⟩
      · obtain ⟨hi, hs, hr, r', hr', hc⟩ := h'
        exact Or.inr ⟨hi, hs, hr, r', List.mem_cons_of_mem _ hr', hc⟩
  unfold mergeGroupRecords at h
  by_cases hlen : ((records.foldl
      (fun (st : (List (String × Json)) × List (List (String × Json))) record =>
        let ex := extractRepositoryEntries record
        let merged :=
          ex.2.foldl
            (fun merged kv => setEntry merged kv.1 (mergeField (lookupField merged kv.1) kv.2))
            st.1
        (merged, st.2 ++ ex.1))
      ([], [])).2).length > 0
  · rw [if_pos hlen] at h
    rcases containsKey_setEntry_elim _ _ _ _ h with h' | h'
    · exact Or.inl h'
    · rcases main records ([], []) k h' with h'' | h''
      · simp [containsKey] at h''
      · exact Or.inr h''
  · rw [if_neg hlen] at h
    rcases main records ([], []) k h with h'' | h''
    · simp [containsKey] at h''
    · exact Or.inr h''

/-! Collapsing a two-record input sharing one identity. -/

theorem collapseStep_first (idField metadataField : String) (f : List (String × Json))
    (idv mv : Json) (hid : lookupField f idField = some idv)
    (hm : lookupField f metadataField = some mv) (hmm : isMeaninglessMetadata mv = false) :
    collapseStep idField metadataField ⟨[], 0, 0, 0⟩ (.obj f) =
      ⟨[(buildIdKey idv, ⟨mv, [f]⟩)], 0, 0, 0⟩ := by
  simp [collapseStep, hid, hm, hmm]

theorem collapseRecords_pair (f1 f2 : List (String × Json)) (idField metadataField : String)
    (id1 m1 id2 m2 : Json)
    (hid1 : lookupField f1 idField = some id1)
    (hm1 : lookupField f1 metadataField = some m1)
    (hmm1 : isMeaninglessMetadata m1 = false)
    (hid2 : lookupField f2 idField = some id2)
    (hm2 : lookupField f2 metadataField = some m2)
    (hmm2 : isMeaninglessMetadata m2 = false)
    (hkey : buildIdKey id2 = buildIdKey id1) :
    collapseRecords [.obj f1, .obj f2] idField metadataField =
      (if 0 < compareMetadata m2 m1 then
        ⟨[mergeGroupRecords [f2]], ⟨2, 1, 1, 0, 0, 0, 1⟩⟩
      else if compareMetadata m2 m1 = 0 then
        ⟨[mergeGroupRecords [f1, f2]], ⟨2, 1, 2, 1, 0, 0, 0⟩⟩
      else ⟨[mergeGroupRecords [f1]], ⟨2, 1, 1, 0, 0, 0, 1⟩⟩) := by
  have hstep1 := collapseStep_first idField metadataField f1 id1 m1 hid1 hm1 hmm1
  unfold collapseRecords
  simp only [List.foldl_cons, List.foldl_nil, hstep1]
  have hstep2 : collapseStep idField metadataField ⟨[(buildIdKey id1, ⟨m1, [f1]⟩)], 0, 0, 0⟩
      (.obj f2) =
      (if 0 < compareMetadata m2 m1 then
        ⟨[(buildIdKey id1, ⟨m2, [f2]⟩)], 0, 0, 1⟩
      else if compareMetadata m2 m1 = 0 then
        ⟨[(buildIdKey id1, ⟨m1, [f1, f2]⟩)], 0, 0, 0⟩
      else ⟨[(buildIdKey id1, ⟨m1, [f1]⟩)], 0, 0, 1⟩) := by
    simp only [collapseStep, hid2, hm2, hmm2, Bool.false_eq_true, if_false, hkey,
      lookupEntry_cons_self]
    by_cases hc1 : 0 < compareMetadata m2 m1
    · simp [hc1, gt_iff_lt, setEntry]
    · by_cases hc0 : compareMetadata m2 m1 = 0
      · simp [hc1, hc0, gt_iff_lt, setEntry]
      · simp [hc1, hc0, gt_iff_lt, setEntry]
  rw [hstep2]
  by_cases hc1 : 0 < compareMetadata m2 m1
  · simp [hc1]
  · by_cases hc0 : compareMetadata m2 m1 = 0
    · simp [hc1, hc0]
    · simp [hc1, hc0]

theorem compareAsStrings_ne_cases (a b : Json)
    (h : toComparableString a ≠ toComparableString b) :
    compareAsStrings a b = 1 ∨ compareAsStrings a b = -1 := by
  unfold compareAsStrings
  by_cases hlt : strLt (toComparableString b) (toComparableString a) = true
  · simp [h, hlt]
  · simp [h, hlt]

/-- C1 (claim): in a two-record input whose records share one identity and
where the second record's freshness compares strictly greater
(`compareMetadata` returns 1), in either input order the single output
record for that identity is merged from the strictly fresher record alone
— every key of the output comes from that record (or is the synthesized
`repositories` key) — and `olderRecordsSkipped` is 1, counting the one
discarded strictly-older record. -/
theorem claim_C1_freshest_record_wins
    (f1 f2 : List (String × Json)) (idField metadataField : String) (id1 m1 id2 m2 : Json)
    (hid1 : lookupField f1 idField = some id1)
    (hm1 : lookupField f1 metadataField = some m1)
    (hmm1 : isMeaninglessMetadata m1 = false)
    (hid2 : lookupField f2 idField = some id2)
    (hm2 : lookupField f2 metadataField = some m2)
    (hmm2 : isMeaninglessMetadata m2 = false)
    (hkey : buildIdKey id2 = buildIdKey id1)
    (hcmp : compareMetadata m2 m1 = 1) :
    collapseRecords [.obj f1, .obj f2] idField metadataField =
      ⟨[mergeGroupRecords [f2]], ⟨2, 1, 1, 0, 0, 0, 1⟩⟩ ∧
    collapseRecords [.obj f2, .obj f1] idField metadataField =
      ⟨[mergeGroupRecords [f2]], ⟨2, 1, 1, 0, 0, 0, 1⟩⟩ ∧
    ∀ k, containsKey (mergeGroupRecords [f2]) k = true →
      k = "repositories" ∨ containsKey f2 k = true := by
  refine ⟨?_, ?_, ?_⟩
  · rw [collapseRecords_pair f1 f2 _ _ id1 m1 id2 m2 hid1 hm1 hmm1 hid2 hm2 hmm2 hkey, hcmp]
    norm_num
  · rw [collapseRecords_pair f2 f1 _ _ id2 m2 id1 m1 hid2 hm2 hmm2 hid1 hm1 hmm1 hkey.symm]
    have hrev : compareMetadata m1 m2 = -1 := by
      rw [compareMetadata_antisymm m1 m2, hcmp]
    rw [hrev]
    norm_num
  · intro k hk
    rcases mergeGroupRecords_keys [f2] k hk with h | h
    · exact Or.inl h
    · obtain ⟨_, _, _, r, hr, hc⟩ := h
      simp only [List.mem_singleton] at hr
      subst hr
      exact Or.inr hc

/-- Witness for C1 at the specification's example records. -/
theorem claim_C1_witness :
    collapseRecords
        [.obj [("id", Json.str "a"), ("t", Json.str "2023-01-01"), ("v", Json.num 1)],
         .obj [("id", Json.str "a"), ("t", Json.str "2024-01-01"), ("v", Json.num 2)]]
        "id" "t" =
      ⟨[mergeGroupRecords [[("id", Json.str "a"), ("t", Json.str "2024-01-01"), ("v", Json.num 2)]]],
        ⟨2, 1, 1, 0, 0, 0, 1⟩⟩ :=
  (claim_C1_freshest_record_wins
    [("id", Json.str "a"), ("t", Json.str "2023-01-01"), ("v", Json.num 1)]
    [("id", Json.str "a"), ("t", Json.str "2024-01-01"), ("v", Json.num 2)]
    "id" "t" (Json.str "a") (Json.str "2023-01-01") (Json.str "a") (Json.str "2024-01-01")
    (by decide) (by decide) (by decide) (by decide) (by decide) (by decide) (by decide)
    (by decide)).1

/-- C3 counterexample: the freshness values `1704067200000` (a number) and
`"2024-01-01"` both parse to the numeric timestamp 1704067200000, yet the
two records sharing identity `a` are NOT merged into the same group as the
claim asserts: the later record replaces the earlier one (string fallback)
and `olderRecordsSkipped` is 1, `usedRecords` only 1. -/
theorem claim_C3_counterexample :
    toTimestamp (Json.num 1704067200000) = toTimestamp (Json.str "2024-01-01") ∧
    (collapseRecords
        [Json.obj [("id", Json.str "a"), ("t", Json.num 1704067200000), ("v", Json.num 1)],
         Json.obj [("id", Json.str "a"), ("t", Json.str "2024-01-01"), ("v", Json.num 2)]]
        "id" "t").summary.usedRecords = 1 ∧
    (collapseRecords
        [Json.obj [("id", Json.str "a"), ("t", Json.num 1704067200000), ("v", Json.num 1)],
         Json.obj [("id", Json.str "a"), ("t", Json.str "2024-01-01"), ("v", Json.num 2)]]
        "id" "t").summary.olderRecordsSkipped = 1 :=
  ⟨by decide, by decide, by decide⟩

/-- C3 (amended): when both freshness values parse as numeric timestamps,
a strictly larger timestamp wins in either input order and the loser is
skipped; when the timestamps are numerically EQUAL the comparison falls
back to the comparable-string forms — the records are merged into the same
group exactly when those strings coincide, and otherwise the record whose
comparable string is lexicographically greater is kept while the other
record is skipped (not merged). -/
theorem claim_C3_amended
    (f1 f2 : List (String × Json)) (idField metadataField : String) (id1 m1 id2 m2 : Json)
    (t1 t2 : Int)
    (hid1 : lookupField f1 idField = some id1)
    (hm1 : lookupField f1 metadataField = some m1)
    (hmm1 : isMeaninglessMetadata m1 = false)
    (hid2 : lookupField f2 idField = some id2)
    (hm2 : lookupField f2 metadataField = some m2)
    (hmm2 : isMeaninglessMetadata m2 = false)
    (hkey : buildIdKey id2 = buildIdKey id1)
    (ht1 : toTimestamp m1 = some t1) (ht2 : toTimestamp m2 = some t2) :
    (t1 < t2 →
      collapseRecords [.obj f1, .obj f2] idField metadataField =
        ⟨[mergeGroupRecords [f2]], ⟨2, 1, 1, 0, 0, 0, 1⟩⟩) ∧
    (t2 < t1 →
      collapseRecords [.obj f1, .obj f2] idField metadataField =
        ⟨[mergeGroupRecords [f1]], ⟨2, 1, 1, 0, 0, 0, 1⟩⟩) ∧
    (t1 = t2 → toComparableString m2 = toComparableString m1 →
      collapseRecords [.obj f1, .obj f2] idField metadataField =
        ⟨[mergeGroupRecords [f1, f2]], ⟨2, 1, 2, 1, 0, 0, 0⟩⟩) ∧
    (t1 = t2 → strLt (toComparableString m1) (toComparableString m2) = true →
      collapseRecords [.obj f1, .obj f2] idField metadataField =
        ⟨[mergeGroupRecords [f2]], ⟨2, 1, 1, 0, 0, 0, 1⟩⟩) ∧
    (t1 = t2 → strLt (toComparableString m2) (toComparableString m1) = true →
      collapseRecords [.obj f1, .obj f2] idField metadataField =
        ⟨[mergeGroupRecords [f1]], ⟨2, 1, 1, 0, 0, 0, 1⟩⟩) := by
  have hpair := collapseRecords_pair f1 f2 idField metadataField id1 m1 id2 m2
    hid1 hm1 hmm1 hid2 hm2 hmm2 hkey
  refine ⟨?_, ?_, ?_, ?_, ?_⟩
  · intro hlt
    have hc : compareMetadata m2 m1 = 1 := by
      rw [compareMetadata_of_ne_timestamps m2 m1 t2 t1 ht2 ht1 (by omega)]
      simp [hlt]
    rw [hpair, hc]
    norm_num
  · intro hlt
    have hc : compareMetadata m2 m1 = -1 := by
      rw [compareMetadata_of_ne_timestamps m2 m1 t2 t1 ht2 ht1 (by omega)]
      have hn : ¬ t1 < t2 := by omega
      simp [hn]
    rw [hpair, hc]
    norm_num
  · intro hteq hseq
    have hc : compareMetadata m2 m1 = 0 := by
      rw [compareMetadata_of_eq_timestamps m2 m1 t1 (hteq ▸ ht2) ht1]
      exact (compareAsStrings_eq_zero_iff m2 m1).mpr hseq
    rw [hpair, hc]
    norm_num
  · intro hteq hslt
    have hne : toComparableString m2 ≠ toComparableString m1 := by
      intro he
      rw [he] at hslt
      rw [strLt_irrefl] at hslt
      cases hslt
    have hcs : compareAsStrings m2 m1 = 1 := by
      show (if toComparableString m2 = toComparableString m1 then (0 : Int)
        else if strLt (toComparableString m1) (toComparableString m2) then 1 else -1) = 1
      rw [if_neg hne, if_pos hslt]
    have hc : compareMetadata m2 m1 = 1 := by
      rw [compareMetadata_of_eq_timestamps m2 m1 t1 (hteq ▸ ht2) ht1]
      exact hcs
    rw [hpair, hc]
    norm_num
  · intro hteq hslt
    have hne : toComparableString m2 ≠ toComparableString m1 := by
      intro he
      rw [he] at hslt
      rw [strLt_irrefl] at hslt
      cases hslt
    have hnlt : strLt (toComparableString m1) (toComparableString m2) = false :=
      strLt_asymm hslt
    have hcs : compareAsStrings m2 m1 = -1 := by
      show (if toComparableString m2 = toComparableString m1 then (0 : Int)
        else if strLt (toComparableString m1) (toComparableString m2) then 1 else -1) = -1
      rw [if_neg hne, hnlt]
      simp
    have hc : compareMetadata m2 m1 = -1 := by
      rw [compareMetadata_of_eq_timestamps m2 m1 t1 (hteq ▸ ht2) ht1]
      exact hcs
    rw [hpair, hc]
    norm_num

/-- Witness for the amended C3: records with the identical freshness string
parse to equal timestamps with coinciding comparable strings and are merged
into one group; with equal timestamps but distinct comparable strings (the
number 1704067200000 against the string "2024-01-01") the record whose
comparable string is lexicographically greater is kept and the other
skipped. -/
theorem claim_C3_amended_witness :
    (collapseRecords
        [.obj [("id", Json.str "a"), ("t", Json.str "2024-01-01"), ("v", Json.num 1)],
         .obj [("id", Json.str "a"), ("t", Json.str "2024-01-01"), ("v", Json.num 2)]]
        "id" "t" =
      ⟨[mergeGroupRecords
          [[("id", Json.str "a"), ("t", Json.str "2024-01-01"), ("v", Json.num 1)],
           [("id", Json.str "a"), ("t", Json.str "2024-01-01"), ("v", Json.num 2)]]],
        ⟨2, 1, 2, 1, 0, 0, 0⟩⟩) ∧
    (collapseRecords
        [.obj [("id", Json.str "a"), ("t", Json.num 1704067200000), ("v", Json.num 1)],
         .obj [("id", Json.str "a"), ("t", Json.str "2024-01-01"), ("v", Json.num 2)]]
        "id" "t" =
      ⟨[mergeGroupRecords
          [[("id", Json.str "a"), ("t", Json.str "2024-01-01"), ("v", Json.num 2)]]],
        ⟨2, 1, 1, 0, 0, 0, 1⟩⟩) :=
  ⟨(claim_C3_amended
      [("id", Json.str "a"), ("t", Json.str "2024-01-01"), ("v", Json.num 1)]
      [("id", Json.str "a"), ("t", Json.str "2024-01-01"), ("v", Json.num 2)]
      "id" "t" (Json.str "a") (Json.str "2024-01-01") (Json.str "a") (Json.str "2024-01-01")
      1704067200000 1704067200000
      (by decide) (by decide) (by decide) (by decide) (by decide) (by decide) (by decide)
      (by decide) (by decide)).2.2.1 rfl rfl,
   (claim_C3_amended
      [("id", Json.str "a"), ("t", Json.num 1704067200000), ("v", Json.num 1)]
      [("id", Json.str "a"), ("t", Json.str "2024-01-01"), ("v", Json.num 2)]
      "id" "t" (Json.str "a") (Json.num 1704067200000) (Json.str "a") (Json.str "2024-01-01")
      1704067200000 1704067200000
      (by decide) (by decide) (by decide) (by decide) (by decide) (by decide) (by decide)
      (by decide) (by decide)).2.2.2.1 rfl (by decide)⟩

/-! Conservation of the summary counters. -/

theorem foldl_add_map {α : Type} (f : α → Nat) (l : List α) (a : Nat) :
    l.foldl (fun n x => n + f x) a = a + (l.map f).sum := by
  induction l generalizing a with
  | nil => simp
  | cons x xs ih =>
    simp [ih]
    omega

theorem length_le_sum_of_one_le {α : Type} (f : α → Nat) (l : List α)
    (h : ∀ x ∈ l, 1 ≤ f x) : l.length ≤ (l.map f).sum := by
  induction l with
  | nil => simp
  | cons x xs ih =>
    have h1 := h x (List.mem_cons_self x xs)
    have h2 := ih (fun y hy => h y (List.mem_cons_of_mem _ hy))
    simp
    omega

theorem collapseStep_measure (idField metadataField : String) (st : CollapseState) (r : Json) :
    ((collapseStep idField metadataField st r).byId.map (fun kv => kv.2.records.length)).sum +
        (collapseStep idField metadataField st r).missingId +
        (collapseStep idField metadataField st r).missingMetadata +
        (collapseStep idField metadataField st r).olderRecordsSkipped =
      (st.byId.map (fun kv => kv.2.records.length)).sum + st.missingId + st.missingMetadata +
        st.olderRecordsSkipped + 1 := by
  cases r with
  | obj fields =>
    simp only [collapseStep]
    rcases hlid : lookupField fields idField with _ | idValue
    · simp
      omega
    rcases hlm : lookupField fields metadataField with _ | metadataValue
    · simp
      omega
    by_cases hm : isMeaninglessMetadata metadataValue
    · simp [hm]
      omega
    simp only [hm, Bool.false_eq_true, if_false]
    rcases hb : lookupEntry st.byId (buildIdKey idValue) with _ | g
    · simp
      omega
    have hsum := snd_map_sum_setEntry (fun gr : Group => gr.records.length) st.byId
      (buildIdKey idValue)
    by_cases hc1 : compareMetadata metadataValue g.metadata > 0
    · have := hsum ⟨metadataValue, [fields]⟩ g hb
      simp only [hc1, if_true]
      simp at this ⊢
      omega
    · by_cases hc0 : compareMetadata metadataValue g.metadata = 0
      · have := hsum ⟨g.metadata, g.records ++ [fields]⟩ g hb
        simp only [hc1, if_false, hc0, if_true]
        simp at this ⊢
        omega
      · simp [hc1, hc0]
        omega
  | null =>
    simp [collapseStep]
    omega
  | bool b =>
    simp [collapseStep]
    omega
  | num n =>
    simp [collapseStep]
    omega
  | str s =>
    simp [collapseStep]
    omega
  | arr es =>
    simp [collapseStep]
    omega

theorem collapse_fold_measure (idField metadataField : String) :
    ∀ (records : List Json) (st : CollapseState),
      (((records.foldl (collapseStep idField metadataField) st).byId.map
          (fun kv => kv.2.records.length)).sum +
        (records.foldl (collapseStep idField metadataField) st).missingId +
        (records.foldl (collapseStep idField metadataField) st).missingMetadata +
        (records.foldl (collapseStep idField metadataField) st).olderRecordsSkipped) =
      (st.byId.map (fun kv => kv.2.records.length)).sum + st.missingId + st.missingMetadata +
        st.olderRecordsSkipped + records.length := by
  intro records
  induction records with
  | nil => intro st; simp
  | cons r rest ih =>
    intro st
    simp only [List.foldl_cons, List.length_cons]
    rw [ih (collapseStep idField metadataField st r), collapseStep_measure]
    omega

theorem collapse_fold_groups_nonempty (idField metadataField : String) :
    ∀ (records : List Json) (st : CollapseState),
      (∀ e ∈ st.byId, e.2.records ≠ []) →
      ∀ e ∈ (records.foldl (collapseStep idField metadataField) st).byId, e.2.records ≠ [] := by
  intro records
  induction records with
  | nil => intro st h; exact h
  | cons r rest ih =>
    intro st h
    simp only [List.foldl_cons]
    refine ih _ ?_
    intro e he
    cases r with
    | obj fields =>
      simp only [collapseStep] at he
      split at he
      · exact h e he
      · split at he
        · exact h e he
        · split at he
          · exact h e he
          · split at he
            · simp only [List.mem_append, List.mem_singleton] at he
              rcases he with he | he
              · exact h e he
              · subst he
                simp
            · split at he
              · rcases mem_setEntry _ _ _ _ he with he' | he'
                · subst he'
                  simp
                · exact h e he'
              · split at he
                · rcases mem_setEntry _ _ _ _ he with he' | he'
                  · subst he'
                    simp
                  · exact h e he'
                · exact h e he
    | null => exact h e he
    | bool b => exact h e he
    | num n => exact h e he
    | str s => exact h e he
    | arr es => exact h e he

/-- C9 (claim): for every input and field choice the summary is
conservative — `totalRecords` equals
`usedRecords + missingId + missingMetadata + olderRecordsSkipped`
(every input record is counted exactly once), `uniqueIds` is the length of
the output list, and `mergedRecords` is `usedRecords − uniqueIds` (the
subtraction never truncating since every group is non-empty, whence
`uniqueIds ≤ usedRecords`). -/
theorem claim_C9_summary_conservation (records : List Json) (idField metadataField : String) :
    (collapseRecords records idField metadataField).summary.totalRecords =
        (collapseRecords records idField metadataField).summary.usedRecords +
        (collapseRecords records idField metadataField).summary.missingId +
        (collapseRecords records idField metadataField).summary.missingMetadata +
        (collapseRecords records idField metadataField).summary.olderRecordsSkipped ∧
    (collapseRecords records idField metadataField).summary.uniqueIds =
        (collapseRecords records idField metadataField).collapsed.length ∧
    (collapseRecords records idField metadataField).summary.mergedRecords =
        (collapseRecords records idField metadataField).summary.usedRecords -
        (collapseRecords records idField metadataField).summary.uniqueIds ∧
    (collapseRecords records idField metadataField).summary.uniqueIds ≤
        (collapseRecords records idField metadataField).summary.usedRecords := by
  have hmeasure := collapse_fold_measure idField metadataField records ⟨[], 0, 0, 0⟩
  have hne := collapse_fold_groups_nonempty idField metadataField records ⟨[], 0, 0, 0⟩
    (by intro e he; cases he)
  simp only [collapseRecords, foldl_add_map]
  refine ⟨?_, by trivial, by trivial, ?_⟩
  · simp only [CollapseSummary.totalRecords] at *
    simp at hmeasure ⊢
    omega
  · simp only [List.length_map]
    have : (records.foldl (collapseStep idField metadataField) ⟨[], 0, 0, 0⟩).byId.length ≤
        ((records.foldl (collapseStep idField metadataField) ⟨[], 0, 0, 0⟩).byId.map
          (fun kv => kv.2.records.length)).sum := by
      refine length_le_sum_of_one_le _ _ ?_
      intro e he
      have := hne e he
      cases hr : e.2.records with
      | nil => exact absurd hr this
      | cons x xs => simp [hr]
    simpa using this

/-! Per-record defects only bump a counter; the grouping state is
untouched. -/

theorem collapseStep_shift (idField metadataField : String) (byId : List (String × Group))
    (mi mm os di dm dos : Nat) (r : Json) :
    collapseStep idField metadataField ⟨byId, mi + di, mm + dm, os + dos⟩ r =
      ⟨(collapseStep idField metadataField ⟨byId, mi, mm, os⟩ r).byId,
       (collapseStep idField metadataField ⟨byId, mi, mm, os⟩ r).missingId + di,
       (collapseStep idField metadataField ⟨byId, mi, mm, os⟩ r).missingMetadata + dm,
       (collapseStep idField metadataField ⟨byId, mi, mm, os⟩ r).olderRecordsSkipped + dos⟩ := by
  cases r with
  | obj fields =>
    simp only [collapseStep]
    rcases lookupField fields idField with _ | idValue
    · simp
      omega
    rcases lookupField fields metadataField with _ | metadataValue
    · simp
      omega
    by_cases hm : isMeaninglessMetadata metadataValue
    · simp [hm]
      omega
    simp only [hm, Bool.false_eq_true, if_false]
    rcases lookupEntry byId (buildIdKey idValue) with _ | g
    · simp
    by_cases hc1 : compareMetadata metadataValue g.metadata > 0
    · simp [hc1]
      omega
    · by_cases hc0 : compareMetadata metadataValue g.metadata = 0
      · simp [hc1, hc0]
      · simp [hc1, hc0]
        omega
  | null =>
    simp [collapseStep]
    omega
  | bool b =>
    simp [collapseStep]
    omega
  | num n =>
    simp [collapseStep]
    omega
  | str s =>
    simp [collapseStep]
    omega
  | arr es =>
    simp [collapseStep]
    omega

theorem collapse_fold_shift (idField metadataField : String) :
    ∀ (records : List Json) (byId : List (String × Group)) (mi mm os di dm dos : Nat),
      records.foldl (collapseStep idField metadataField) ⟨byId, mi + di, mm + dm, os + dos⟩ =
        ⟨(records.foldl (collapseStep idField metadataField) ⟨byId, mi, mm, os⟩).byId,
         (records.foldl (collapseStep idField metadataField) ⟨byId, mi, mm, os⟩).missingId + di,
         (records.foldl (collapseStep idField metadataField) ⟨byId, mi, mm, os⟩).missingMetadata
           + dm,
         (records.foldl (collapseStep idField metadataField)
           ⟨byId, mi, mm, os⟩).olderRecordsSkipped + dos⟩ := by
  intro records
  induction records with
  | nil => intro byId mi mm os di dm dos; rfl
  | cons r rest ih =>
    intro byId mi mm os di dm dos
    simp only [List.foldl_cons]
    rw [collapseStep_shift]
    rcases hS : collapseStep idField metadataField ⟨byId, mi, mm, os⟩ r with ⟨b', mi', mm', os'⟩
    simp only []
    exact ih b' mi' mm' os' di dm dos

theorem containsKey_false_lookup (o : List (String × Json)) (k : String)
    (h : containsKey o k = false) : lookupField o k = none := by
  have := containsKey_iff_lookup o k
  rw [h] at this
  rcases hl : lookupField o k with _ | v
  · rfl
  · rw [hl] at this
    simp at this

theorem collapseStep_missingId (idField metadataField : String) (st : CollapseState) (r : Json)
    (h : ∀ fields, r = Json.obj fields → containsKey fields idField = false) :
    collapseStep idField metadataField st r =
      ⟨st.byId, st.missingId + 1, st.missingMetadata, st.olderRecordsSkipped⟩ := by
  cases r with
  | obj fields =>
    have hl := containsKey_false_lookup fields idField (h fields rfl)
    simp [collapseStep, hl]
  | null => rfl
  | bool b => rfl
  | num n => rfl
  | str s => rfl
  | arr es => rfl

theorem collapseStep_missingMetadata (idField metadataField : String) (st : CollapseState)
    (fields : List (String × Json)) (idv : Json)
    (hid : lookupField fields idField = some idv)
    (h : lookupField fields metadataField = none ∨
      ∃ v, lookupField fields metadataField = some v ∧ isMeaninglessMetadata v = true) :
    collapseStep idField metadataField st (Json.obj fields) =
      ⟨st.byId, st.missingId, st.missingMetadata + 1, st.olderRecordsSkipped⟩ := by
  rcases h with h | ⟨v, hv, hm⟩
  · simp [collapseStep, hid, h]
  · simp [collapseStep, hid, hv, hm]

/-- C8 (claim): a record that is not a JSON object or lacks the identity
field contributes nothing to any group and only bumps `missingId`
(and the record total); a record whose freshness field is absent or
meaningless (null or empty/whitespace string) likewise only bumps
`missingMetadata`; processing of the surrounding records continues
unchanged; and the empty input yields the empty output with an all-zero
summary. -/
theorem claim_C8_defective_records (idField metadataField : String) :
    (∀ (l1 l2 : List Json) (r : Json),
      (∀ fields, r = Json.obj fields → containsKey fields idField = false) →
      collapseRecords (l1 ++ r :: l2) idField metadataField =
        ⟨(collapseRecords (l1 ++ l2) idField metadataField).collapsed,
         ⟨(l1 ++ l2).length + 1,
          (collapseRecords (l1 ++ l2) idField metadataField).summary.uniqueIds,
          (collapseRecords (l1 ++ l2) idField metadataField).summary.usedRecords,
          (collapseRecords (l1 ++ l2) idField metadataField).summary.mergedRecords,
          (collapseRecords (l1 ++ l2) idField metadataField).summary.missingId + 1,
          (collapseRecords (l1 ++ l2) idField metadataField).summary.missingMetadata,
          (collapseRecords (l1 ++ l2) idField metadataField).summary.olderRecordsSkipped⟩⟩) ∧
    (∀ (l1 l2 : List Json) (fields : List (String × Json)) (idv : Json),
      lookupField fields idField = some idv →
      (lookupField fields metadataField = none ∨
        ∃ v, lookupField fields metadataField = some v ∧ isMeaninglessMetadata v = true) →
      collapseRecords (l1 ++ Json.obj fields :: l2) idField metadataField =
        ⟨(collapseRecords (l1 ++ l2) idField metadataField).collapsed,
         ⟨(l1 ++ l2).length + 1,
          (collapseRecords (l1 ++ l2) idField metadataField).summary.uniqueIds,
          (collapseRecords (l1 ++ l2) idField metadataField).summary.usedRecords,
          (collapseRecords (l1 ++ l2) idField metadataField).summary.mergedRecords,
          (collapseRecords (l1 ++ l2) idField metadataField).summary.missingId,
          (collapseRecords (l1 ++ l2) idField metadataField).summary.missingMetadata + 1,
          (collapseRecords (l1 ++ l2) idField metadataField).summary.olderRecordsSkipped⟩⟩) ∧
    collapseRecords [] idField metadataField = ⟨[], ⟨0, 0, 0, 0, 0, 0, 0⟩⟩ := by
  have key : ∀ (l1 l2 : List Json) (r : Json) (di dm : Nat),
      (∀ (st : CollapseState), collapseStep idField metadataField st r =
        ⟨st.byId, st.missingId + di, st.missingMetadata + dm, st.olderRecordsSkipped⟩) →
      collapseRecords (l1 ++ r :: l2) idField metadataField =
        ⟨(collapseRecords (l1 ++ l2) idField metadataField).collapsed,
         ⟨(l1 ++ l2).length + 1,
          (collapseRecords (l1 ++ l2) idField metadataField).summary.uniqueIds,
          (collapseRecords (l1 ++ l2) idField metadataField).summary.usedRecords,
          (collapseRecords (l1 ++ l2) idField metadataField).summary.mergedRecords,
          (collapseRecords (l1 ++ l2) idField metadataField).summary.missingId + di,
          (collapseRecords (l1 ++ l2) idField metadataField).summary.missingMetadata + dm,
          (collapseRecords (l1 ++ l2) idField metadataField).summary.olderRecordsSkipped⟩⟩ := by
    intro l1 l2 r di dm hstep
    have hsplit : (l1 ++ r :: l2).foldl (collapseStep idField metadataField) ⟨[], 0, 0, 0⟩ =
        l2.foldl (collapseStep idField metadataField)
          (collapseStep idField metadataField
            (l1.foldl (collapseStep idField metadataField) ⟨[], 0, 0, 0⟩) r) := by
      rw [List.foldl_append]
      rfl
    rcases hmid : l1.foldl (collapseStep idField metadataField) ⟨[], 0, 0, 0⟩
      with ⟨b0, mi0, mm0, os0⟩
    have hstep' := hstep ⟨b0, mi0, mm0, os0⟩
    simp only [] at hstep'
    have hshift := collapse_fold_shift idField metadataField l2 b0 mi0 mm0 os0 di dm 0
    simp only [Nat.add_zero] at hshift
    simp only [collapseRecords]
    rw [hsplit, hmid, hstep', hshift, List.foldl_append, hmid]
    simp
    omega
  refine ⟨?_, ?_, rfl⟩
  · intro l1 l2 r hdef
    have := key l1 l2 r 1 0 (fun st => collapseStep_missingId idField metadataField st r hdef)
    simpa using this
  · intro l1 l2 fields idv hid hmeta
    have := key l1 l2 (Json.obj fields) 0 1
      (fun st => collapseStep_missingMetadata idField metadataField st fields idv hid hmeta)
    simpa using this

/-- Witness for C8: a bare number and a record with an empty freshness
string are both excluded while the remaining record is processed. -/
theorem claim_C8_witness :
    collapseRecords
        [Json.num 3, Json.obj [("id", Json.str "a"), ("t", Json.str "T")]] "id" "t" =
      ⟨(collapseRecords [Json.obj [("id", Json.str "a"), ("t", Json.str "T")]] "id" "t").collapsed,
       ⟨2, 1, 1, 0, 1, 0, 0⟩⟩ ∧
    collapseRecords
        [Json.obj [("id", Json.str "a"), ("t", Json.str "")],
         Json.obj [("id", Json.str "a"), ("t", Json.str "T")]] "id" "t" =
      ⟨(collapseRecords [Json.obj [("id", Json.str "a"), ("t", Json.str "T")]] "id" "t").collapsed,
       ⟨2, 1, 1, 0, 0, 1, 0⟩⟩ := by
  constructor
  · have := (claim_C8_defective_records "id" "t").1 []
      [Json.obj [("id", Json.str "a"), ("t", Json.str "T")]] (Json.num 3)
      (fun fields h => Json.noConfusion h)
    simp only [List.nil_append] at this
    rw [this]
    decide
  · have := (claim_C8_defective_records "id" "t").2.1 []
      [Json.obj [("id", Json.str "a"), ("t", Json.str "T")]]
      [("id", Json.str "a"), ("t", Json.str "")] (Json.str "a")
      (by decide) (Or.inr ⟨Json.str "", by decide, by decide⟩)
    simp only [List.nil_append] at this
    rw [this]
    decide

/-! Properties of the stable key sort. -/

theorem mem_insertByKey {α : Type} (x : String × α) :
    ∀ (l : List (String × α)) (z : String × α), z ∈ insertByKey x l → z = x ∨ z ∈ l := by
  intro l
  induction l with
  | nil =>
    intro z hz
    simpa [insertByKey] using hz
  | cons y ys ih =>
    intro z hz
    simp only [insertByKey] at hz
    by_cases hlt : strLt y.1 x.1 = true
    · rw [if_pos hlt] at hz
      rcases List.mem_cons.mp hz with h | h
      · exact Or.inr (by simp [h])
      · rcases ih z h with h' | h'
        · exact Or.inl h'
        · exact Or.inr (List.mem_cons_of_mem _ h')
    · rw [if_neg hlt] at hz
      rcases List.mem_cons.mp hz with h | h
      · exact Or.inl h
      · exact Or.inr h

theorem insertByKey_perm {α : Type} (x : String × α) :
    ∀ (l : List (String × α)), (insertByKey x l).Perm (x :: l) := by
  intro l
  induction l with
  | nil => simp [insertByKey]
  | cons y ys ih =>
    simp only [insertByKey]
    by_cases hlt : strLt y.1 x.1 = true
    · rw [if_pos hlt]
      exact (List.Perm.cons y ih).trans (List.Perm.swap x y ys)
    · rw [if_neg hlt]

theorem sortByKey_perm {α : Type} : ∀ (l : List (String × α)), (sortByKey l).Perm l := by
  intro l
  induction l with
  | nil => simp [sortByKey]
  | cons x xs ih =>
    have hc : sortByKey (x :: xs) = insertByKey x (sortByKey xs) := rfl
    rw [hc]
    exact (insertByKey_perm x (sortByKey xs)).trans (List.Perm.cons x ih)

theorem insertByKey_pairwise {α : Type} (x : String × α) :
    ∀ (l : List (String × α)),
      l.Pairwise (fun a b => strLt b.1 a.1 = false) →
      (insertByKey x l).Pairwise (fun a b => strLt b.1 a.1 = false) := by
  intro l
  induction l with
  | nil =>
    intro _
    simp [insertByKey]
  | cons y ys ih =>
    intro hpw
    rw [List.pairwise_cons] at hpw
    simp only [insertByKey]
    by_cases hlt : strLt y.1 x.1 = true
    · rw [if_pos hlt, List.pairwise_cons]
      constructor
      · intro z hz
        rcases mem_insertByKey x ys z hz with h | h
        · rw [h]
          exact strLt_asymm hlt
        · exact hpw.1 z h
      · exact ih hpw.2
    · rw [if_neg hlt, List.pairwise_cons]
      refine ⟨?_, List.pairwise_cons.mpr hpw⟩
      intro z hz
      rcases List.mem_cons.mp hz with h | h
      · rw [h]
        exact Bool.not_eq_true _ ▸ hlt
      · rcases hb : strLt z.1 x.1 with _ | _
        · rfl
        · exfalso
          have hyz : strLt z.1 y.1 = false := hpw.1 z h
          rcases hb2 : strLt y.1 z.1 with _ | _
          · have hkey : z.1 = y.1 := strLt_connex hyz hb2
            rw [hkey] at hb
            exact hlt hb
          · exact hlt (strLt_trans hb2 hb)

theorem sortByKey_pairwise {α : Type} :
    ∀ (l : List (String × α)),
      (sortByKey l).Pairwise (fun a b => strLt b.1 a.1 = false) := by
  intro l
  induction l with
  | nil => simp [sortByKey]
  | cons x xs ih => exact insertByKey_pairwise x (sortByKey xs) ih

theorem sorted_key_unique {α : Type} :
    ∀ (l₁ l₂ : List (String × α)), l₁.Perm l₂ →
      l₁.Pairwise (fun a b => strLt b.1 a.1 = false) →
      l₂.Pairwise (fun a b => strLt b.1 a.1 = false) →
      (l₁.map Prod.fst).Nodup → l₁ = l₂ := by
  intro l₁
  induction l₁ with
  | nil =>
    intro l₂ hp _ _ _
    exact List.Perm.nil_eq hp
  | cons a t ih =>
    intro l₂ hp hpw1 hpw2 hnd
    cases l₂ with
    | nil =>
      rw [List.perm_nil] at hp
      cases hp
    | cons b t₂ =>
      have hab : a = b := by
        by_contra hne
        have hbmem : b ∈ a :: t := hp.symm.mem_iff.mp (List.mem_cons_self b t₂)
        have hbt : b ∈ t := by
          rcases List.mem_cons.mp hbmem with h | h
          · exact absurd h.symm hne
          · exact h
        have hamem : a ∈ b :: t₂ := hp.mem_iff.mp (List.mem_cons_self a t)
        have hat : a ∈ t₂ := by
          rcases List.mem_cons.mp hamem with h | h
          · exact absurd h hne
          · exact h
        have h1 : strLt b.1 a.1 = false := (List.pairwise_cons.mp hpw1).1 b hbt
        have h2 : strLt a.1 b.1 = false := (List.pairwise_cons.mp hpw2).1 a hat
        have hkey : a.1 = b.1 := strLt_connex h2 h1
        have hmem : a.1 ∈ t.map Prod.fst := hkey ▸ List.mem_map_of_mem Prod.fst hbt
        exact (List.nodup_cons.mp hnd).1 hmem
      subst hab
      have htail := ih t₂ hp.cons_inv (List.pairwise_cons.mp hpw1).2
        (List.pairwise_cons.mp hpw2).2 (List.nodup_cons.mp hnd).2
      rw [htail]

/-- The comparator of `stableStringify` reads only keys and the sort is
stable, so sorting commutes with mapping over the values: serializing the
values first and sorting afterwards (as the model's `stableStringify`
does) yields the same entry list as sorting first (as the source
does). -/
theorem sortByKey_map_snd {α β : Type} (f : α → β) :
    ∀ (l : List (String × α)),
      sortByKey (l.map (fun p => (p.1, f p.2))) =
        (sortByKey l).map (fun p => (p.1, f p.2)) := by
  have hins : ∀ (x : String × α) (l : List (String × α)),
      insertByKey (x.1, f x.2) (l.map (fun p => (p.1, f p.2))) =
        (insertByKey x l).map (fun p => (p.1, f p.2)) := by
    intro x l
    induction l with
    | nil => rfl
    | cons y ys ih =>
      simp only [List.map_cons, insertByKey]
      by_cases hlt : strLt y.1 x.1 = true
      · rw [if_pos hlt, if_pos hlt, List.map_cons, ih]
      · rw [if_neg hlt, if_neg hlt, List.map_cons, List.map_cons]
  intro l
  induction l with
  | nil => rfl
  | cons x xs ih =>
    show insertByKey (x.1, f x.2) (sortByKey (xs.map (fun p => (p.1, f p.2)))) =
      (insertByKey x (sortByKey xs)).map (fun p => (p.1, f p.2))
    rw [ih, hins]

/-! Equivalence of the fold-based field merge with the specification's
collect/filter/de-duplicate description. -/

theorem contains_append_entry {α : Type} [BEq α] (l₁ l₂ : List α) (a : α) :
    (l₁ ++ l₂).contains a = (l₁.contains a || l₂.contains a) := by
  induction l₁ with
  | nil => simp
  | cons x xs ih => simp [List.contains_cons, ih, Bool.or_assoc]

theorem contains_map_eq_any (values : List Json) (v : Json) :
    (values.map stableStringify).contains (stableStringify v) =
      values.any (fun w => stableStringify w = stableStringify v) := by
  induction values with
  | nil => rfl
  | cons w ws ih =>
    simp only [List.map_cons, List.contains_cons, List.any_cons, ih]
    by_cases h : stableStringify w = stableStringify v
    · simp [h]
    · have h2 : ¬ stableStringify v = stableStringify w := fun hc => h hc.symm
      simp [h, h2]

theorem dedupByStableKey_congr :
    ∀ (l : List Json) (seen seen' : List String),
      (∀ k, seen.contains k = seen'.contains k) →
      dedupByStableKey seen l = dedupByStableKey seen' l := by
  intro l
  induction l with
  | nil => intro seen seen' _; rfl
  | cons v vs ih =>
    intro seen seen' h
    simp only [dedupByStableKey]
    rw [h (stableStringify v)]
    by_cases hc : seen'.contains (stableStringify v) = true
    · rw [if_pos hc, if_pos hc]
      exact ih seen seen' h
    · rw [if_neg hc, if_neg hc]
      rw [ih (stableStringify v :: seen) (stableStringify v :: seen')
        (fun k => by simp only [List.contains_cons, h k])]

theorem foldl_addValue_eq :
    ∀ (vs : List Json) (values : List Json),
      vs.foldl addValue values =
        values ++ dedupByStableKey (values.map stableStringify)
          (vs.filter (fun v => ¬ isMeaningless v)) := by
  intro vs
  induction vs with
  | nil =>
    intro values
    simp [dedupByStableKey]
  | cons v rest ih =>
    intro values
    simp only [List.foldl_cons, List.filter_cons]
    by_cases hm : isMeaningless v
    · rw [show addValue values v = values from by simp [addValue, hm]]
      rw [if_neg (by simp [hm])]
      exact ih values
    · by_cases hseen : values.any (fun w => stableStringify w = stableStringify v) = true
      · rw [show addValue values v = values from by simp [addValue, hm, hseen]]
        rw [ih, if_pos (by simp [hm])]
        congr 1
        simp only [dedupByStableKey]
        rw [if_pos (by rw [contains_map_eq_any]; exact hseen)]
      · rw [show addValue values v = values ++ [v] from by
          simp [addValue, hm, hseen, cloneJsonValue_eq]]
        rw [ih (values ++ [v]), if_pos (by simp [hm])]
        rw [List.append_assoc]
        congr 1
        have hns : (values.map stableStringify).contains (stableStringify v) = false := by
          rw [contains_map_eq_any]
          simpa using hseen
        simp only [dedupByStableKey]
        rw [if_neg (by rw [hns]; exact Bool.false_ne_true)]
        simp only [List.map_append, List.map_cons, List.map_nil, List.singleton_append]
        rw [dedupByStableKey_congr _ (values.map stableStringify ++ [stableStringify v])
          (stableStringify v :: values.map stableStringify)
          (fun k => by
            rw [contains_append_entry]
            simp [List.contains_cons, Bool.or_comm])]

theorem addValueFlat_eq_foldl (values : List Json) (v : Json) :
    addValueFlat values v = (flattenOneLevel (some v)).foldl addValue values := by
  cases v <;> simp [addValueFlat, flattenOneLevel]

theorem mergeValues_eq_none (incoming : Json) :
    addValueFlat [] incoming =
      dedupByStableKey []
        ((flattenOneLevel none ++ flattenOneLevel (some incoming)).filter
          (fun v => ¬ isMeaningless v)) := by
  rw [addValueFlat_eq_foldl, foldl_addValue_eq]
  simp [flattenOneLevel]

theorem mergeValues_eq_some (e incoming : Json) :
    addValueFlat (addValueFlat [] e) incoming =
      dedupByStableKey []
        ((flattenOneLevel (some e) ++ flattenOneLevel (some incoming)).filter
          (fun v => ¬ isMeaningless v)) := by
  rw [addValueFlat_eq_foldl, addValueFlat_eq_foldl, ← List.foldl_append, foldl_addValue_eq]
  simp

theorem mergeField_eq_spec (existing : Option Json) (incoming : Json)
    (h : existing ≠ some Json.null) :
    mergeField existing incoming = mergeFieldSpec existing incoming := by
  cases existing with
  | none =>
    show (match addValueFlat [] incoming with
        | [] => Json.arr []
        | [v] => v
        | vs => Json.arr vs) =
      (match dedupByStableKey []
          ((flattenOneLevel none ++ flattenOneLevel (some incoming)).filter
            (fun v => ¬ isMeaningless v)) with
        | [] => Json.arr []
        | [v] => v
        | vs => Json.arr vs)
    rw [mergeValues_eq_none incoming]
  | some e =>
    cases e with
    | null => exact absurd rfl h
    | bool b =>
      show (match addValueFlat (addValueFlat [] (Json.bool b)) incoming with
          | [] => Json.bool b
          | [v] => v
          | vs => Json.arr vs) =
        (match dedupByStableKey []
            ((flattenOneLevel (some (Json.bool b)) ++ flattenOneLevel (some incoming)).filter
              (fun v => ¬ isMeaningless v)) with
          | [] => Json.bool b
          | [v] => v
          | vs => Json.arr vs)
      rw [mergeValues_eq_some (Json.bool b) incoming]
    | num n =>
      show (match addValueFlat (addValueFlat [] (Json.num n)) incoming with
          | [] => Json.num n
          | [v] => v
          | vs => Json.arr vs) =
        (match dedupByStableKey []
            ((flattenOneLevel (some (Json.num n)) ++ flattenOneLevel (some incoming)).filter
              (fun v => ¬ isMeaningless v)) with
          | [] => Json.num n
          | [v] => v
          | vs => Json.arr vs)
      rw [mergeValues_eq_some (Json.num n) incoming]
    | str sv =>
      show (match addValueFlat (addValueFlat [] (Json.str sv)) incoming with
          | [] => Json.str sv
          | [v] => v
          | vs => Json.arr vs) =
        (match dedupByStableKey []
            ((flattenOneLevel (some (Json.str sv)) ++ flattenOneLevel (some incoming)).filter
              (fun v => ¬ isMeaningless v)) with
          | [] => Json.str sv
          | [v] => v
          | vs => Json.arr vs)
      rw [mergeValues_eq_some (Json.str sv) incoming]
    | arr es =>
      show (match addValueFlat (addValueFlat [] (Json.arr es)) incoming with
          | [] => Json.arr es
          | [v] => v
          | vs => Json.arr vs) =
        (match dedupByStableKey []
            ((flattenOneLevel (some (Json.arr es)) ++ flattenOneLevel (some incoming)).filter
              (fun v => ¬ isMeaningless v)) with
          | [] => Json.arr es
          | [v] => v
          | vs => Json.arr vs)
      rw [mergeValues_eq_some (Json.arr es) incoming]
    | obj fields =>
      show (match addValueFlat (addValueFlat [] (Json.obj fields)) incoming with
          | [] => Json.obj fields
          | [v] => v
          | vs => Json.arr vs) =
        (match dedupByStableKey []
            ((flattenOneLevel (some (Json.obj fields)) ++ flattenOneLevel (some incoming)).filter
              (fun v => ¬ isMeaningless v)) with
          | [] => Json.obj fields
          | [v] => v
          | vs => Json.arr vs)
      rw [mergeValues_eq_some (Json.obj fields) incoming]

/-! Deep structural equality up to key permutations is invisible to the
stable serialization. -/

theorem map_eq_of_zip {α β : Type} (f : α → β) :
    ∀ (es fs : List α), es.length = fs.length →
      (∀ p ∈ es.zip fs, f p.1 = f p.2) → es.map f = fs.map f := by
  intro es
  induction es with
  | nil =>
    intro fs hl _
    cases fs with
    | nil => rfl
    | cons g gs => simp at hl
  | cons e es ih =>
    intro fs hl h
    cases fs with
    | nil => simp at hl
    | cons g gs =>
      simp only [List.map_cons]
      rw [h (e, g) (by simp [List.zip_cons_cons]),
        ih gs (by simpa using hl) (fun p hp => h p (by simp [List.zip_cons_cons, hp]))]

theorem keyPermEquiv_stringify : ∀ {v w : Json}, KeyPermEquiv v w →
    stableStringify v = stableStringify w := by
  intro v w h
  induction h with
  | null => rfl
  | bool b => rfl
  | num n => rfl
  | str s => rfl
  | arr es fs hlen h ih =>
    rw [stableStringify_arr, stableStringify_arr, map_eq_of_zip stableStringify es fs hlen ih]
  | obj l lmid l' hnd hperm hlen hkeys h ih =>
    rw [stableStringify_obj, stableStringify_obj]
    have hmap : lmid.map (fun kv => (kv.1, stableStringify kv.2)) =
        l'.map (fun kv => (kv.1, stableStringify kv.2)) := by
      refine map_eq_of_zip _ _ _ hlen ?_
      intro p hp
      have h1 := hkeys p hp
      have h2 := ih p hp
      exact Prod.ext h1 h2
    have hperm2 : (l.map (fun kv => (kv.1, stableStringify kv.2))).Perm
        (l'.map (fun kv => (kv.1, stableStringify kv.2))) := by
      refine (hperm.map _).trans ?_
      rw [hmap]
    have hkeysid : (l.map (fun kv => (kv.1, stableStringify kv.2))).map Prod.fst =
        l.map Prod.fst := by
      rw [List.map_map]
      exact List.map_congr_left (fun p _ => rfl)
    have hnd2 : ((l.map (fun kv => (kv.1, stableStringify kv.2))).map Prod.fst).Nodup := by
      rw [hkeysid]
      exact hnd
    have hndsorted :
        ((sortByKey (l.map (fun kv => (kv.1, stableStringify kv.2)))).map Prod.fst).Nodup := by
      refine (List.Perm.nodup_iff ?_).mpr hnd2
      exact (sortByKey_perm _).map Prod.fst
    have hsorted := sorted_key_unique
      (sortByKey (l.map (fun kv => (kv.1, stableStringify kv.2))))
      (sortByKey (l'.map (fun kv => (kv.1, stableStringify kv.2))))
      ((sortByKey_perm _).trans (hperm2.trans (sortByKey_perm _).symm))
      (sortByKey_pairwise _) (sortByKey_pairwise _) hndsorted
    rw [hsorted]

/-- C2 (claim): the field merge implements exactly the specification's
policy — collect the existing and incoming values flattening one level of
lists, drop null and empty/whitespace-string entries, de-duplicate by
stable serialization (deep structural equality, insensitive to object key
order at any depth) in first-seen order, emit a scalar when exactly one
distinct value remains and the ordered list otherwise, and preserve the
previous merged value (defaulting to the empty list) when everything
collected was empty.  The serialization-insensitivity to key order is the
second conjunct; the specification's two concrete tag examples are the
last two conjuncts.  (The single corner the specification's wording does
not cover is a previously merged value that is literally `null` — the code
then yields `[]` rather than preserving `null`; a `null` can never be a
previously merged value in group merging, and the equivalence is stated
away from that corner.) -/
theorem claim_C2_field_merge_policy :
    (∀ (existing : Option Json) (incoming : Json), existing ≠ some Json.null →
      mergeField existing incoming = mergeFieldSpec existing incoming) ∧
    (∀ (v w : Json), KeyPermEquiv v w → stableStringify v = stableStringify w) ∧
    (collapseRecords
        [Json.obj [("id", Json.str "a"), ("t", Json.str "T"), ("tag", Json.str "x")],
         Json.obj [("id", Json.str "a"), ("t", Json.str "T"), ("tag", Json.str "y")]]
        "id" "t").collapsed =
      [[("id", Json.str "a"), ("t", Json.str "T"),
        ("tag", Json.arr [Json.str "x", Json.str "y"])]] ∧
    (collapseRecords
        [Json.obj [("id", Json.str "a"), ("t", Json.str "T"), ("tag", Json.str "x")],
         Json.obj [("id", Json.str "a"), ("t", Json.str "T"), ("tag", Json.str "x")]]
        "id" "t").collapsed =
      [[("id", Json.str "a"), ("t", Json.str "T"), ("tag", Json.str "x")]] :=
  ⟨mergeField_eq_spec, fun _ _ h => keyPermEquiv_stringify h, by decide, by decide⟩

/-- Witness for C2: the refinement applied at a concrete field pair, and
the key-order insensitivity applied at a concrete two-key object. -/
theorem claim_C2_witness :
    mergeField (some (Json.str "x")) (Json.str "y") =
      mergeFieldSpec (some (Json.str "x")) (Json.str "y") ∧
    stableStringify (Json.obj [("a", Json.num 1), ("b", Json.num 2)]) =
      stableStringify (Json.obj [("b", Json.num 2), ("a", Json.num 1)]) := by
  constructor
  · exact claim_C2_field_merge_policy.1 (some (Json.str "x")) (Json.str "y") (by simp)
  · refine claim_C2_field_merge_policy.2.1 _ _ ?_
    refine KeyPermEquiv.obj [("a", Json.num 1), ("b", Json.num 2)]
      [("b", Json.num 2), ("a", Json.num 1)] [("b", Json.num 2), ("a", Json.num 1)]
      (by decide) ?_ rfl ?_ ?_
    · exact List.Perm.swap ("b", Json.num 2) ("a", Json.num 1) []
    · decide
    · intro p hp
      have hz : ([(("b" : String), Json.num 2), ("a", Json.num 1)]).zip
          [(("b" : String), Json.num 2), ("a", Json.num 1)] =
          [((("b" : String), Json.num 2), (("b" : String), Json.num 2)),
           ((("a" : String), Json.num 1), (("a" : String), Json.num 1))] := rfl
      rw [hz] at hp
      rcases List.mem_cons.mp hp with h | h
      · rw [h]
        exact KeyPermEquiv.num 2
      · rcases List.mem_cons.mp h with h' | h'
        · rw [h']
          exact KeyPermEquiv.num 1
        · cases h'

/-! Collapsing records with pairwise distinct identities produces
singleton groups. -/

theorem collapse_fold_distinct (idField metadataField : String) :
    ∀ (rs : List (List (String × Json))) (st : CollapseState),
      (∀ f ∈ rs, (lookupField f idField).isSome ∧ (lookupField f metadataField).isSome ∧
        isMeaninglessMetadata ((lookupField f metadataField).getD Json.null) = false) →
      (∀ f ∈ rs,
        lookupEntry st.byId (buildIdKey ((lookupField f idField).getD Json.null)) = none) →
      ((rs.map (fun f => buildIdKey ((lookupField f idField).getD Json.null))).Nodup) →
      (rs.map Json.obj).foldl (collapseStep idField metadataField) st =
        ⟨st.byId ++ rs.map (fun f => (buildIdKey ((lookupField f idField).getD Json.null),
            ⟨(lookupField f metadataField).getD Json.null, [f]⟩)),
          st.missingId, st.missingMetadata, st.olderRecordsSkipped⟩ := by
  intro rs
  induction rs with
  | nil =>
    intro st _ _ _
    simp
  | cons f rest ih =>
    intro st hvalid hfresh hnd
    obtain ⟨hid, hm, hmm⟩ := hvalid f (List.mem_cons_self f rest)
    rcases hlid : lookupField f idField with _ | idv
    · rw [hlid] at hid
      simp at hid
    rcases hlm : lookupField f metadataField with _ | mv
    · rw [hlm] at hm
      simp at hm
    rw [hlm] at hmm
    simp only [Option.getD_some] at hmm
    have hfr := hfresh f (List.mem_cons_self f rest)
    rw [hlid] at hfr
    simp only [Option.getD_some] at hfr
    have hstep : collapseStep idField metadataField st (Json.obj f) =
        ⟨st.byId ++ [(buildIdKey idv, ⟨mv, [f]⟩)], st.missingId, st.missingMetadata,
          st.olderRecordsSkipped⟩ := by
      simp [collapseStep, hlid, hlm, hmm, hfr]
    simp only [List.map_cons, List.foldl_cons, hstep]
    have hrest := ih ⟨st.byId ++ [(buildIdKey idv, ⟨mv, [f]⟩)], st.missingId, st.missingMetadata,
        st.olderRecordsSkipped⟩
      (fun g hg => hvalid g (List.mem_cons_of_mem _ hg))
      ?_ ?_
    · rw [hrest]
      simp [hlid, hlm, List.append_assoc]
    · intro g hg
      have hfr2 := hfresh g (List.mem_cons_of_mem _ hg)
      have hne : buildIdKey ((lookupField g idField).getD Json.null) ≠ buildIdKey idv := by
        intro hc
        have : buildIdKey ((lookupField f idField).getD Json.null) ∈
            rest.map (fun r => buildIdKey ((lookupField r idField).getD Json.null)) := by
          rw [hlid]
          simp only [Option.getD_some]
          rw [← hc]
          exact List.mem_map_of_mem _ hg
        exact (List.nodup_cons.mp hnd).1 this
      simp only []
      rw [lookupEntry_append]
      rw [hfr2]
      simp only [lookupEntry_cons]
      rw [if_neg (fun hc => hne hc.symm)]
      rfl
    · exact (List.nodup_cons.mp hnd).2

/-- C4 counterexample: the single-record input whose field `x` holds the
nested singleton array `[[1]]` collapses to a record with `x = [1]` —
an output in which the one identity appears exactly once — but collapsing
that output again yields `x = 1`, a different output. -/
theorem claim_C4_counterexample :
    (collapseRecords
        [Json.obj [("id", Json.str "a"), ("t", Json.str "T"),
          ("x", Json.arr [Json.arr [Json.num 1]])]] "id" "t").collapsed =
      [[("id", Json.str "a"), ("t", Json.str "T"), ("x", Json.arr [Json.num 1])]] ∧
    (collapseRecords
        [Json.obj [("id", Json.str "a"), ("t", Json.str "T"),
          ("x", Json.arr [Json.arr [Json.num 1]])]] "id" "t").summary.uniqueIds = 1 ∧
    (collapseRecords
        ((collapseRecords
            [Json.obj [("id", Json.str "a"), ("t", Json.str "T"),
              ("x", Json.arr [Json.arr [Json.num 1]])]] "id" "t").collapsed.map Json.obj)
        "id" "t").collapsed ≠
      (collapseRecords
        [Json.obj [("id", Json.str "a"), ("t", Json.str "T"),
          ("x", Json.arr [Json.arr [Json.num 1]])]] "id" "t").collapsed :=
  ⟨by decide, by decide, by decide⟩

theorem map_eq_self_iff_forall {α : Type} (g : α → α) :
    ∀ (l : List α), l.map g = l ↔ ∀ x ∈ l, g x = x := by
  intro l
  induction l with
  | nil => simp
  | cons x xs ih =>
    constructor
    · intro h
      rw [List.map_cons] at h
      have h1 := List.cons.inj h
      intro y hy
      rcases List.mem_cons.mp hy with hy | hy
      · rw [hy]
        exact h1.1
      · exact (ih.mp h1.2) y hy
    · intro h
      rw [List.map_cons, h x (List.mem_cons_self x xs),
        ih.mpr (fun y hy => h y (List.mem_cons_of_mem x hy))]

/-- C4 (amended): re-collapsing a list of records in which every identity
appears exactly once re-merges each record as its own group — the output
records are exactly `mergeGroupRecords [r]` for each input record `r` in
order, with an all-singleton summary (totalRecords = uniqueIds =
usedRecords, everything else 0) — and the output record list is literally
identical to the input exactly when every record is a fixed point of the
one-record re-merge (`mergeGroupRecords [r] = r`).  Outputs of a previous
collapse violate the fixed-point condition when a merged field value is a
list emitted as a scalar (e.g. a nested singleton array, re-flattened by
the second pass) or a repository object's dedup key changes after
merging. -/
theorem claim_C4_amended (rs : List (List (String × Json))) (idField metadataField : String)
    (hvalid : ∀ f ∈ rs, (lookupField f idField).isSome ∧ (lookupField f metadataField).isSome ∧
      isMeaninglessMetadata ((lookupField f metadataField).getD Json.null) = false)
    (hdistinct : (rs.map (fun f => buildIdKey ((lookupField f idField).getD Json.null))).Nodup) :
    (collapseRecords (rs.map Json.obj) idField metadataField =
      ⟨rs.map (fun f => mergeGroupRecords [f]),
        ⟨rs.length, rs.length, rs.length, 0, 0, 0, 0⟩⟩) ∧
    ((collapseRecords (rs.map Json.obj) idField metadataField).collapsed = rs ↔
      ∀ f ∈ rs, mergeGroupRecords [f] = f) := by
  have hmain : collapseRecords (rs.map Json.obj) idField metadataField =
      ⟨rs.map (fun f => mergeGroupRecords [f]),
        ⟨rs.length, rs.length, rs.length, 0, 0, 0, 0⟩⟩ := by
    have hfold := collapse_fold_distinct idField metadataField rs ⟨[], 0, 0, 0⟩ hvalid
      (fun f _ => rfl) hdistinct
    simp only [collapseRecords, hfold, List.nil_append]
    have hcollapsed :
        (rs.map (fun f => (buildIdKey ((lookupField f idField).getD Json.null),
            (⟨(lookupField f metadataField).getD Json.null, [f]⟩ : Group)))).map
          (fun kv => mergeGroupRecords kv.2.records) = rs.map (fun f => mergeGroupRecords [f]) := by
      rw [List.map_map]
      rfl
    rw [hcollapsed]
    have hused : (rs.map (fun f => (buildIdKey ((lookupField f idField).getD Json.null),
        (⟨(lookupField f metadataField).getD Json.null, [f]⟩ : Group)))).foldl
          (fun n kv => n + kv.2.records.length) 0 = rs.length := by
      rw [foldl_add_map, List.map_map]
      have hone : rs.map ((fun kv : String × Group => kv.2.records.length) ∘
          (fun f => (buildIdKey ((lookupField f idField).getD Json.null),
            (⟨(lookupField f metadataField).getD Json.null, [f]⟩ : Group)))) =
          rs.map (fun _ => 1) := List.map_congr_left (fun f _ => rfl)
      rw [hone]
      induction rs with
      | nil => rfl
      | cons x xs ihs =>
        simp at ihs ⊢
        omega
    rw [hused]
    simp [List.length_map]
  refine ⟨hmain, ?_⟩
  rw [hmain]
  exact map_eq_self_iff_forall (fun f => mergeGroupRecords [f]) rs

/-- Witness for the amended C4: a one-record collapsed output made of
scalar fields re-collapses to its own one-record re-merge with an
all-singleton summary, and that record is a fixed point of the re-merge. -/
theorem claim_C4_witness :
    (collapseRecords
        [Json.obj [("id", Json.str "a"), ("t", Json.str "T"), ("tag", Json.str "x")]] "id" "t" =
      ⟨[mergeGroupRecords [[("id", Json.str "a"), ("t", Json.str "T"), ("tag", Json.str "x")]]],
        ⟨1, 1, 1, 0, 0, 0, 0⟩⟩) ∧
    mergeGroupRecords [[("id", Json.str "a"), ("t", Json.str "T"), ("tag", Json.str "x")]] =
      [("id", Json.str "a"), ("t", Json.str "T"), ("tag", Json.str "x")] :=
  ⟨(claim_C4_amended [[("id", Json.str "a"), ("t", Json.str "T"), ("tag", Json.str "x")]]
      "id" "t" (by decide) (by decide)).1,
    by decide⟩

/-! Characterization of the repository-field zipping. -/

theorem foldl_append_filterMap {α β : Type} (g : α → Option β) :
    ∀ (l : List α) (acc : List β),
      l.foldl (fun acc x =>
        match g x with
        | some b => acc ++ [b]
        | none => acc) acc =
        acc ++ l.filterMap g := by
  intro l
  induction l with
  | nil => intro acc; simp
  | cons x xs ih =>
    intro acc
    simp only [List.foldl_cons, List.filterMap_cons]
    rcases hg : g x with _ | b
    · rw [ih]
    · rw [ih]
      simp

theorem setEntry_fresh {α : Type} :
    ∀ (l : List (String × α)) (k : String) (v : α), lookupEntry l k = none →
      setEntry l k v = l ++ [(k, v)] := by
  intro l
  induction l with
  | nil => intro k v _; rfl
  | cons p rest ih =>
    intro k v h
    rw [lookupEntry_cons] at h
    by_cases hp : p.1 = k
    · rw [if_pos hp] at h
      cases h
    · rw [if_neg hp] at h
      simp only [setEntry, hp, if_false, List.cons_append]
      rw [ih k v h]

theorem lookup_of_mem_nodup {α : Type} :
    ∀ (l : List (String × α)) (k : String) (x : α), (l.map Prod.fst).Nodup →
      (k, x) ∈ l → lookupEntry l k = some x := by
  intro l
  induction l with
  | nil => intro k x _ h; cases h
  | cons p rest ih =>
    intro k x hnd h
    rcases List.mem_cons.mp h with h' | h'
    · rw [← h']
      exact lookupEntry_cons_self _ _ _
    · rw [lookupEntry_cons]
      have hk : ¬ p.1 = k := by
        intro hc
        have : p.1 ∈ rest.map Prod.fst := hc ▸ List.mem_map_of_mem Prod.fst h'
        exact (List.nodup_cons.mp (by simpa using hnd)).1 this
      rw [if_neg hk]
      exact ih k x (List.nodup_cons.mp (by simpa using hnd)).2 h'

theorem lookup_none_of_not_mem_keys {α : Type} :
    ∀ (l : List (String × α)) (k : String), k ∉ l.map Prod.fst → lookupEntry l k = none := by
  intro l
  induction l with
  | nil => intro k _; rfl
  | cons p rest ih =>
    intro k h
    rw [lookupEntry_cons]
    simp only [List.map_cons, List.mem_cons] at h
    push_neg at h
    rw [if_neg (fun hc => h.1 hc.symm)]
    exact ih k h.2

theorem filterMap_all_some_length {α β : Type} (h : α → Option β) :
    ∀ (l : List α), (∀ x ∈ l, (h x).isSome) → (l.filterMap h).length = l.length := by
  intro l
  induction l with
  | nil => intro _; rfl
  | cons x xs ih =>
    intro hall
    have hx := hall x (List.mem_cons_self x xs)
    rcases hg : h x with _ | b
    · rw [hg] at hx
      simp at hx
    · simp only [List.filterMap_cons, hg, List.length_cons]
      rw [ih (fun y hy => hall y (List.mem_cons_of_mem _ hy))]

theorem filterMap_all_some_get {α β : Type} (h : α → Option β) :
    ∀ (l : List α), (∀ x ∈ l, (h x).isSome) →
      ∀ i, (l.filterMap h).get? i = (l.get? i).bind h := by
  intro l
  induction l with
  | nil => intro _ i; rfl
  | cons x xs ih =>
    intro hall i
    have hx := hall x (List.mem_cons_self x xs)
    rcases hg : h x with _ | b
    · rw [hg] at hx
      simp at hx
    · cases i with
      | zero => simp [List.filterMap_cons, hg]
      | succ j =>
        simp only [List.filterMap_cons, hg]
        rw [show ((b :: xs.filterMap h).get? (j + 1)) = (xs.filterMap h).get? j from rfl]
        rw [ih (fun y hy => hall y (List.mem_cons_of_mem _ hy)) j]
        rfl

theorem foldl_max_attained :
    ∀ (l : List (String × List Json)) (m0 : Nat),
      l.foldl (fun m kv => max m kv.2.length) m0 = m0 ∨
      ∃ kv ∈ l, l.foldl (fun m kv => max m kv.2.length) m0 = kv.2.length := by
  intro l
  induction l with
  | nil => intro m0; exact Or.inl rfl
  | cons p rest ih =>
    intro m0
    simp only [List.foldl_cons]
    rcases ih (max m0 p.2.length) with h | ⟨kv, hkv, h⟩
    · rw [h]
      rcases Nat.le_total m0 p.2.length with hle | hle
      · exact Or.inr ⟨p, List.mem_cons_self p rest, by omega⟩
      · exact Or.inl (by omega)
    · exact Or.inr ⟨kv, List.mem_cons_of_mem _ hkv, h⟩

theorem foldl_max_le :
    ∀ (l : List (String × List Json)) (m0 : Nat),
      m0 ≤ l.foldl (fun m kv => max m kv.2.length) m0 ∧
      ∀ kv ∈ l, kv.2.length ≤ l.foldl (fun m kv => max m kv.2.length) m0 := by
  intro l
  induction l with
  | nil => intro m0; exact ⟨Nat.le_refl _, fun kv h => absurd h (List.not_mem_nil kv)⟩
  | cons p rest ih =>
    intro m0
    simp only [List.foldl_cons]
    obtain ⟨h1, h2⟩ := ih (max m0 p.2.length)
    refine ⟨by omega, ?_⟩
    intro kv hkv
    rcases List.mem_cons.mp hkv with h | h
    · subst h
      omega
    · exact h2 kv h

theorem normalized_build_eq :
    ∀ (repoFields : List (String × Json)) (acc : List (String × List Json)),
      (repoFields.map Prod.fst).Nodup →
      (∀ p ∈ repoFields, lookupEntry acc p.1 = none) →
      repoFields.foldl (fun acc kv =>
        let values := normalizeRepositoryValue kv.2
        if values.length = 0 then acc else setEntry acc kv.1 values) acc =
        acc ++ repoFields.filterMap (fun kv =>
          let values := normalizeRepositoryValue kv.2
          if values.length = 0 then none else some (kv.1, values)) := by
  intro repoFields
  induction repoFields with
  | nil =>
    intro acc _ _
    simp
  | cons kv rest ih =>
    intro acc hnd hfresh
    simp only [List.foldl_cons, List.filterMap_cons]
    by_cases hz : (normalizeRepositoryValue kv.2).length = 0
    · simp only [hz, if_true]
      exact ih acc (List.nodup_cons.mp (by simpa using hnd)).2
        (fun p hp => hfresh p (List.mem_cons_of_mem _ hp))
    · simp only [hz, if_false]
      rw [setEntry_fresh acc kv.1 (normalizeRepositoryValue kv.2)
        (hfresh kv (List.mem_cons_self kv rest))]
      rw [ih (acc ++ [(kv.1, normalizeRepositoryValue kv.2)])
        (List.nodup_cons.mp (by simpa using hnd)).2 ?_]
      · simp
      · intro p hp
        rw [lookupEntry_append, hfresh p (List.mem_cons_of_mem _ hp)]
        simp only [lookupEntry_cons, lookupEntry_nil]
        rw [if_neg ?_]
        intro hc
        have : p.1 ∈ rest.map Prod.fst := List.mem_map_of_mem Prod.fst hp
        rw [← hc] at this
        exact (List.nodup_cons.mp (by simpa using hnd)).1 this

theorem filterMap_max_eq (repoFields : List (String × Json)) :
    ∀ (m0 : Nat),
      ((repoFields.filterMap (fun kv =>
          let values := normalizeRepositoryValue kv.2
          if values.length = 0 then none else some (kv.1, values))).foldl
        (fun m kv => max m kv.2.length) m0) =
      (repoFields.map (fun kv => (normalizeRepositoryValue kv.2).length)).foldl max m0 := by
  induction repoFields with
  | nil => intro m0; rfl
  | cons kv rest ih =>
    intro m0
    simp only [List.filterMap_cons, List.map_cons, List.foldl_cons]
    by_cases hz : (normalizeRepositoryValue kv.2).length = 0
    · simp only [hz, if_true]
      rw [ih m0, Nat.max_zero]
    · simp only [hz, if_false, List.foldl_cons]
      exact ih (max m0 (normalizeRepositoryValue kv.2).length)

theorem inner_repo_fold (NL : List (String × List Json)) (index : Nat) :
    ∀ (acc : List (String × Json)),
      NL.foldl (fun rep kv =>
        let value? :=
          match kv.2.get? index with
          | some v => some v
          | none => if kv.2.length = 1 then kv.2.get? 0 else none
        match value? with
        | some v => rep ++ [(kv.1, cloneJsonValue v)]
        | none => rep) acc =
      acc ++ NL.filterMap (fun kv =>
        (match kv.2.get? index with
          | some v => some v
          | none => if kv.2.length = 1 then kv.2.get? 0 else none).map
          (fun v => (kv.1, cloneJsonValue v))) := by
  induction NL with
  | nil => intro acc; simp
  | cons kv rest ih =>
    intro acc
    simp only [List.foldl_cons, List.filterMap_cons]
    rcases hpick : (match kv.2.get? index with
      | some v => some v
      | none => if kv.2.length = 1 then kv.2.get? 0 else none) with _ | v
    · simp only [hpick, Option.map_none']
      exact ih acc
    · simp only [hpick, Option.map_some']
      rw [ih (acc ++ [(kv.1, cloneJsonValue v)])]
      simp

theorem entry_unique_of_nodup {α : Type} :
    ∀ (l : List (String × α)) (k : String) (a b : α), (l.map Prod.fst).Nodup →
      (k, a) ∈ l → (k, b) ∈ l → a = b := by
  intro l
  induction l with
  | nil => intro k a b _ h; cases h
  | cons p rest ih =>
    intro k a b hnd ha hb
    rw [List.map_cons] at hnd
    have hnd' := List.nodup_cons.mp hnd
    rcases List.mem_cons.mp ha with h1 | h1 <;> rcases List.mem_cons.mp hb with h2 | h2
    · rw [← h1] at h2
      exact ((Prod.mk.injEq _ _ _ _).mp h2.symm).2
    · exfalso
      have hk : p.1 = k := by rw [← h1]
      have hmem : k ∈ rest.map Prod.fst := List.mem_map.mpr ⟨(k, b), h2, rfl⟩
      have hnot := hnd'.1
      rw [hk] at hnot
      exact hnot hmem
    · exfalso
      have hk : p.1 = k := by rw [← h2]
      have hmem : k ∈ rest.map Prod.fst := List.mem_map.mpr ⟨(k, a), h1, rfl⟩
      have hnot := hnd'.1
      rw [hk] at hnot
      exact hnot hmem
    · exact ih k a b hnd'.2 h1 h2

theorem keys_filterMap_sublist {α β : Type} (g : (String × α) → Option (String × β))
    (hg : ∀ kv b, g kv = some b → b.1 = kv.1) :
    ∀ (l : List (String × α)), ((l.filterMap g).map Prod.fst).Sublist (l.map Prod.fst) := by
  intro l
  induction l with
  | nil => simp
  | cons kv rest ih =>
    simp only [List.filterMap_cons, List.map_cons]
    rcases hgkv : g kv with _ | b
    · exact ih.cons kv.1
    · simp only [List.map_cons]
      rw [hg kv b hgkv]
      exact ih.cons₂ kv.1

theorem repoPickValue_pair_some (i : Nat) (a : String) (l : List Json) (x : Json)
    (h : l.get? i = some x) : repoPickValue i (a, l) = some x := by
  show (match l.get? i with
    | some v => some v
    | none => if l.length = 1 then l.get? 0 else none) = some x
  rw [h]

theorem repoPickValue_pair_none (i : Nat) (a : String) (l : List Json)
    (h : l.get? i = none) :
    repoPickValue i (a, l) = (if l.length = 1 then l.get? 0 else none) := by
  show (match l.get? i with
    | some v => some v
    | none => if l.length = 1 then l.get? 0 else none) =
    (if l.length = 1 then l.get? 0 else none)
  rw [h]

theorem repoPick_pair_some (i : Nat) (a : String) (l : List Json) (x : Json)
    (h : l.get? i = some x) : repoPick i (a, l) = some (a, cloneJsonValue x) := by
  show (repoPickValue i (a, l)).map (fun w => (a, cloneJsonValue w)) =
    some (a, cloneJsonValue x)
  rw [repoPickValue_pair_some i a l x h]
  rfl

theorem repoPick_pair_bcast (i : Nat) (a : String) (l : List Json) (x : Json)
    (h : l.get? i = none) (h1 : l.length = 1) (h0 : l.get? 0 = some x) :
    repoPick i (a, l) = some (a, cloneJsonValue x) := by
  show (repoPickValue i (a, l)).map (fun w => (a, cloneJsonValue w)) =
    some (a, cloneJsonValue x)
  rw [repoPickValue_pair_none i a l h, if_pos h1, h0]
  rfl

theorem repoPick_pair_none (i : Nat) (a : String) (l : List Json)
    (h : l.get? i = none) (h1 : l.length ≠ 1) : repoPick i (a, l) = none := by
  show (repoPickValue i (a, l)).map (fun w => (a, cloneJsonValue w)) = none
  rw [repoPickValue_pair_none i a l h, if_neg h1]
  rfl

theorem repoPick_key (i : Nat) (kv : String × List Json) (b : String × Json)
    (hb : repoPick i kv = some b) : b.1 = kv.1 := by
  unfold repoPick at hb
  rcases hv : repoPickValue i kv with _ | v
  · rw [hv, Option.map_none'] at hb
    cases hb
  · rw [hv, Option.map_some'] at hb
    cases hb
    rfl

theorem repoNormalize_key (kv : String × Json) (b : String × List Json)
    (hb : (let values := normalizeRepositoryValue kv.2
      if values.length = 0 then none else some (kv.1, values)) = some b) :
    b.1 = kv.1 := by
  by_cases hz : (normalizeRepositoryValue kv.2).length = 0
  · have hb2 : (if (normalizeRepositoryValue kv.2).length = 0 then none
      else some (kv.1, normalizeRepositoryValue kv.2)) = some b := hb
    rw [if_pos hz] at hb2
    cases hb2
  · have hb2 : (if (normalizeRepositoryValue kv.2).length = 0 then none
      else some (kv.1, normalizeRepositoryValue kv.2)) = some b := hb
    rw [if_neg hz] at hb2
    cases hb2
    rfl

theorem isEmpty_false_of_mem {α : Type} {l : List α} {x : α} (hx : x ∈ l) :
    l.isEmpty = false := by
  cases l with
  | nil => cases hx
  | cons a as => rfl

theorem filterMap_congr_some {α β : Type} (f : α → Option β) (g : α → β) :
    ∀ (l : List α), (∀ x ∈ l, f x = some (g x)) → l.filterMap f = l.map g := by
  intro l
  induction l with
  | nil => intro h; rfl
  | cons x xs ih =>
    intro h
    rw [List.filterMap_cons, h x (List.mem_cons_self x xs), List.map_cons,
      ih (fun y hy => h y (List.mem_cons_of_mem x hy))]

theorem buildRepositoryObjects_spec (repoFields : List (String × Json))
    (hnd : (repoFields.map Prod.fst).Nodup) :
    buildRepositoryObjects repoFields =
      (List.range ((repoFields.map
          (fun kv => (normalizeRepositoryValue kv.2).length)).foldl max 0)).map
        (fun index => (repoNormalizeFields repoFields).filterMap (repoPick index)) := by
  have hobjs : buildRepositoryObjects repoFields =
      (List.range ((repoFields.filterMap (fun kv =>
          let values := normalizeRepositoryValue kv.2
          if values.length = 0 then none else some (kv.1, values))).foldl
        (fun m kv => max m kv.2.length) 0)).filterMap (fun index =>
        let repository := (repoFields.filterMap (fun kv =>
            let values := normalizeRepositoryValue kv.2
            if values.length = 0 then none else some (kv.1, values))).filterMap (fun kv =>
          (match kv.2.get? index with
            | some v => some v
            | none => if kv.2.length = 1 then kv.2.get? 0 else none).map
            (fun v => (kv.1, cloneJsonValue v)))
        if repository.isEmpty then none else some repository) := by
    unfold buildRepositoryObjects
    rw [normalized_build_eq repoFields [] hnd (fun p _ => rfl)]
    simp only [List.nil_append]
    congr 1
    funext index
    rw [inner_repo_fold _ index []]
    simp only [List.nil_append]
  have hobjs2 : buildRepositoryObjects repoFields =
      (List.range ((repoNormalizeFields repoFields).foldl
        (fun m kv => max m kv.2.length) 0)).filterMap
        (fun index =>
          let repository := (repoNormalizeFields repoFields).filterMap (repoPick index)
          if repository.isEmpty then none else some repository) := hobjs
  have hM : (repoNormalizeFields repoFields).foldl (fun m kv => max m kv.2.length) 0 =
      (repoFields.map (fun kv => (normalizeRepositoryValue kv.2).length)).foldl max 0 :=
    filterMap_max_eq repoFields 0
  rw [hobjs2, hM]
  apply filterMap_congr_some
  intro idx hidx
  rw [List.mem_range, ← hM] at hidx
  have hne : ∃ e, e ∈ (repoNormalizeFields repoFields).filterMap (repoPick idx) := by
    rcases foldl_max_attained (repoNormalizeFields repoFields) 0 with hz | ⟨⟨a, l⟩, hmem0, heq⟩
    · rw [hz] at hidx
      exact absurd hidx (Nat.not_lt_zero idx)
    · rw [heq] at hidx
      have hlen : idx < l.length := hidx
      rcases hg : l.get? idx with _ | x
      · have := List.get?_eq_none.mp hg
        omega
      · exact ⟨(a, cloneJsonValue x),
          List.mem_filterMap.mpr ⟨(a, l), hmem0, repoPick_pair_some idx a l x hg⟩⟩
  obtain ⟨e, he⟩ := hne
  have hie := isEmpty_false_of_mem he
  show (if ((repoNormalizeFields repoFields).filterMap (repoPick idx)).isEmpty then none
    else some ((repoNormalizeFields repoFields).filterMap (repoPick idx))) =
    some ((repoNormalizeFields repoFields).filterMap (repoPick idx))
  simp [hie]

/-- C6 (claim): building repository objects from `repo_<attr>` fields zips the
normalized field values positionally with single-value broadcast — for
duplicate-free field names the number of synthesized repository objects is the
longest normalized value-list length; each output object at position `i` maps a
field name to its value at position `i`, or to its single value broadcast when
the field is single-valued, and omits the field otherwise; in particular the
record with `repo_url = ["u1","u2"]` and `repo_stars = 5` expands to exactly
the two objects `url u1, stars 5` and `url u2, stars 5`. -/
theorem claim_C6_repository_zip (repoFields : List (String × Json))
    (hnd : (repoFields.map Prod.fst).Nodup) :
    (buildRepositoryObjects repoFields).length =
      (repoFields.map (fun kv => (normalizeRepositoryValue kv.2).length)).foldl max 0 ∧
    (∀ (k : String) (v : Json) (i : Nat) (obj : List (String × Json)), (k, v) ∈ repoFields →
      (buildRepositoryObjects repoFields).get? i = some obj →
      lookupField obj k =
        (match (normalizeRepositoryValue v).get? i with
          | some x => some x
          | none =>
            if (normalizeRepositoryValue v).length = 1 then (normalizeRepositoryValue v).get? 0
            else none)) ∧
    (extractRepositoryEntries
        [("repo_url", Json.arr [Json.str "u1", Json.str "u2"]),
         ("repo_stars", Json.num 5)]).1 =
      [[("url", Json.str "u1"), ("stars", Json.num 5)],
       [("url", Json.str "u2"), ("stars", Json.num 5)]] := by
  refine ⟨?_, ?_, by decide⟩
  · rw [buildRepositoryObjects_spec repoFields hnd, List.length_map, List.length_range]
  · intro k v i obj hmem hget
    rw [buildRepositoryObjects_spec repoFields hnd, List.get?_map] at hget
    rcases Nat.lt_or_ge i
        ((repoFields.map (fun kv => (normalizeRepositoryValue kv.2).length)).foldl max 0)
      with hlt | hge
    · rw [List.get?_range hlt, Option.map_some'] at hget
      cases Option.some.inj hget
      show lookupEntry ((repoNormalizeFields repoFields).filterMap (repoPick i)) k =
        (match (normalizeRepositoryValue v).get? i with
          | some x => some x
          | none =>
            if (normalizeRepositoryValue v).length = 1 then (normalizeRepositoryValue v).get? 0
            else none)
      have hsubNL : ((repoNormalizeFields repoFields).map Prod.fst).Sublist
          (repoFields.map Prod.fst) :=
        keys_filterMap_sublist
          (fun kv : String × Json =>
            let values := normalizeRepositoryValue kv.2
            if values.length = 0 then none else some (kv.1, values))
          repoNormalize_key repoFields
      have hndNL : ((repoNormalizeFields repoFields).map Prod.fst).Nodup :=
        List.Nodup.sublist hsubNL hnd
      have hsubObj : (((repoNormalizeFields repoFields).filterMap (repoPick i)).map
          Prod.fst).Sublist ((repoNormalizeFields repoFields).map Prod.fst) :=
        keys_filterMap_sublist (repoPick i) (repoPick_key i) (repoNormalizeFields repoFields)
      have hndObj : (((repoNormalizeFields repoFields).filterMap (repoPick i)).map
          Prod.fst).Nodup :=
        List.Nodup.sublist hsubObj hndNL
      by_cases hvs : (normalizeRepositoryValue v).length = 0
      · have hknot : k ∉ (repoNormalizeFields repoFields).map Prod.fst := by
          intro hk
          obtain ⟨kv1, hmem1, hk1⟩ := List.mem_map.mp hk
          obtain ⟨⟨pk, pv⟩, hp, hgp⟩ := List.mem_filterMap.mp hmem1
          have hgp2 : (if (normalizeRepositoryValue pv).length = 0 then none
            else some (pk, normalizeRepositoryValue pv)) = some kv1 := hgp
          by_cases hz : (normalizeRepositoryValue pv).length = 0
          · rw [if_pos hz] at hgp2
            cases hgp2
          · rw [if_neg hz] at hgp2
            cases Option.some.inj hgp2
            have hpk : pk = k := hk1
            rw [hpk] at hp
            have hpv : pv = v := entry_unique_of_nodup repoFields k pv v hnd hp hmem
            rw [hpv] at hz
            exact hz hvs
        have hknotObj :
            k ∉ ((repoNormalizeFields repoFields).filterMap (repoPick i)).map Prod.fst :=
          fun hk => hknot (hsubObj.subset hk)
        rw [lookup_none_of_not_mem_keys _ k hknotObj]
        have hnil : normalizeRepositoryValue v = [] := List.length_eq_zero.mp hvs
        rw [hnil]
        simp
      · have hmemNL : (k, normalizeRepositoryValue v) ∈ repoNormalizeFields repoFields := by
          refine List.mem_filterMap.mpr ⟨(k, v), hmem, ?_⟩
          show (if (normalizeRepositoryValue v).length = 0 then none
            else some (k, normalizeRepositoryValue v)) = some (k, normalizeRepositoryValue v)
          rw [if_neg hvs]
        rcases hgi : (normalizeRepositoryValue v).get? i with _ | x
        · by_cases h1 : (normalizeRepositoryValue v).length = 1
          · rcases hg0 : (normalizeRepositoryValue v).get? 0 with _ | x0
            · have := List.get?_eq_none.mp hg0
              omega
            · have hmemObj : (k, cloneJsonValue x0) ∈
                  (repoNormalizeFields repoFields).filterMap (repoPick i) :=
                List.mem_filterMap.mpr ⟨(k, normalizeRepositoryValue v), hmemNL,
                  repoPick_pair_bcast i k (normalizeRepositoryValue v) x0 hgi h1 hg0⟩
              rw [lookup_of_mem_nodup _ k (cloneJsonValue x0) hndObj hmemObj]
              simp [h1]
          · have hknotObj :
                k ∉ ((repoNormalizeFields repoFields).filterMap (repoPick i)).map Prod.fst := by
              intro hk
              obtain ⟨e, he, he1⟩ := List.mem_map.mp hk
              obtain ⟨⟨a, l⟩, hkv, hpk⟩ := List.mem_filterMap.mp he
              have hkey := repoPick_key i (a, l) e hpk
              rw [hkey] at he1
              have hak : a = k := he1
              rw [hak] at hkv hpk
              have hl : l = normalizeRepositoryValue v :=
                entry_unique_of_nodup (repoNormalizeFields repoFields) k l
                  (normalizeRepositoryValue v) hndNL hkv hmemNL
              rw [hl] at hpk
              rw [repoPick_pair_none i k (normalizeRepositoryValue v) hgi h1] at hpk
              cases hpk
            rw [lookup_none_of_not_mem_keys _ k hknotObj]
            simp [h1]
        · have hmemObj : (k, cloneJsonValue x) ∈
              (repoNormalizeFields repoFields).filterMap (repoPick i) :=
            List.mem_filterMap.mpr ⟨(k, normalizeRepositoryValue v), hmemNL,
              repoPick_pair_some i k (normalizeRepositoryValue v) x hgi⟩
          rw [lookup_of_mem_nodup _ k (cloneJsonValue x) hndObj hmemObj]
          simp
    · rw [List.get?_eq_none.mpr (by rw [List.length_range]; exact hge)] at hget
      simp at hget

theorem claim_C6_witness :
    (([("stars", Json.num 5)] : List (String × Json)).map Prod.fst).Nodup ∧
    ((buildRepositoryObjects [("stars", Json.num 5)]).length =
        (([("stars", Json.num 5)] : List (String × Json)).map
          (fun kv => (normalizeRepositoryValue kv.2).length)).foldl max 0 ∧
      (∀ (k : String) (v : Json) (i : Nat) (obj : List (String × Json)),
        (k, v) ∈ ([("stars", Json.num 5)] : List (String × Json)) →
        (buildRepositoryObjects [("stars", Json.num 5)]).get? i = some obj →
        lookupField obj k =
          (match (normalizeRepositoryValue v).get? i with
            | some x => some x
            | none =>
              if (normalizeRepositoryValue v).length = 1 then (normalizeRepositoryValue v).get? 0
              else none)) ∧
      (extractRepositoryEntries
          [("repo_url", Json.arr [Json.str "u1", Json.str "u2"]),
           ("repo_stars", Json.num 5)]).1 =
        [[("url", Json.str "u1"), ("stars", Json.num 5)],
         [("url", Json.str "u2"), ("stars", Json.num 5)]]) :=
  ⟨by decide, claim_C6_repository_zip [("stars", Json.num 5)] (by decide)⟩

/-- C5 (counterexample): with `round_id = "7"`, an entry whose `updated_at`
is the number 1704067200000 (inserted first) and one whose `updated_at` is
the string "2024-01-01" parse to the same timestamp; the source keeps the
earlier-inserted entry even though the lexicographic comparison of the
comparable strings favours the later one, and when both entries lack
`updated_at` entirely the merge crashes instead of picking a winner. -/
theorem claim_C5_counterexample :
    (mergeFundingEntries none
      [Json.obj [("round_id", Json.str "7"), ("updated_at", Json.num 1704067200000),
        ("who", Json.str "L")],
       Json.obj [("round_id", Json.str "7"), ("updated_at", Json.str "2024-01-01"),
        ("who", Json.str "R")]] =
      some [[("round_id", Json.str "7"), ("updated_at", Json.num 1704067200000),
        ("who", Json.str "L")]]) ∧
    (strLt (toComparableString (Json.num 1704067200000))
      (toComparableString (Json.str "2024-01-01")) = true) ∧
    (mergeFundingEntries none
      [Json.obj [("round_id", Json.str "8"), ("who", Json.str "L")],
       Json.obj [("round_id", Json.str "8"), ("who", Json.str "R")]] = none) := by
  decide

/-- C5 (amended): funding deduplication by round key picks, between the
existing and the incoming entry, the strictly later `updated_at` timestamp
when both parse, keeping the existing entry on a numeric tie (no
lexicographic fallback); the comparable-string comparison applies only when
at least one value fails to parse as a timestamp and both entries carry an
`updated_at` key, an exact string tie favouring the incoming entry; in that
fallback a missing `updated_at` key crashes the merge (`TypeError`),
producing no result; and two incoming entries sharing one non-empty round
id reduce exactly to this choice. -/
theorem claim_C5_amended (l r : List (String × Json)) :
    (∀ (lt rt : Int), (lookupField l "updated_at").bind toTimestamp = some lt →
      (lookupField r "updated_at").bind toTimestamp = some rt →
      pickLatestByUpdatedAt l r = some (if lt < rt then r else l)) ∧
    (((lookupField l "updated_at").bind toTimestamp = none ∨
        (lookupField r "updated_at").bind toTimestamp = none) →
      ∀ (lv rv : Json), lookupField l "updated_at" = some lv →
        lookupField r "updated_at" = some rv →
        pickLatestByUpdatedAt l r =
          (if toComparableString lv = toComparableString rv then some r
            else if strLt (toComparableString lv) (toComparableString rv) then some r
            else some l)) ∧
    ((lookupField l "updated_at" = none ∨ lookupField r "updated_at" = none) →
      pickLatestByUpdatedAt l r = none) ∧
    (∀ (s : String), sanitizeFundingRecord l = l → sanitizeFundingRecord r = r →
      l.isEmpty = false → r.isEmpty = false →
      lookupField l "round_id" = some (Json.str s) →
      lookupField r "round_id" = some (Json.str s) → (jsTrim s).length > 0 →
      mergeFundingEntries none [Json.obj l, Json.obj r] =
        (pickLatestByUpdatedAt l r).map (fun w => [removeFundingInternalKeys w])) := by
  refine ⟨?_, ?_, ?_, ?_⟩
  · intro lt rt h1 h2
    unfold pickLatestByUpdatedAt
    rw [h1, h2]
  · intro h lv rv hlv hrv
    unfold pickLatestByUpdatedAt
    split
    · rename_i lt rt hb1 hb2
      rcases h with h | h
      · rw [h] at hb1
        simp at hb1
      · rw [h] at hb2
        simp at hb2
    · split
      · rename_i lv2 rv2 hl2 hr2
        rw [hlv] at hl2
        rw [hrv] at hr2
        cases Option.some.inj hl2
        cases Option.some.inj hr2
        rfl
      · rename_i hcontra
        exact (hcontra lv rv hlv hrv).elim
  · intro h
    unfold pickLatestByUpdatedAt
    split
    · rename_i lt rt hb1 hb2
      rcases h with h | h
      · rw [h] at hb1
        simp at hb1
      · rw [h] at hb2
        simp at hb2
    · split
      · rename_i lv2 rv2 hl2 hr2
        rcases h with h | h
        · rw [h] at hl2
          cases hl2
        · rw [h] at hr2
          cases hr2
      · rfl
  · intro s hs1 hs2 hne1 hne2 hr1 hr2 ht
    have hkey1 : createFundingKey (lookupField l "round_id") l = "round:" ++ jsTrim s := by
      rw [hr1]
      show (if (jsTrim s).length > 0 then "round:" ++ jsTrim s
        else "entry:" ++ stableStringify (Json.obj l)) = "round:" ++ jsTrim s
      rw [if_pos ht]
    have hkey2 : createFundingKey (lookupField r "round_id") r = "round:" ++ jsTrim s := by
      rw [hr2]
      show (if (jsTrim s).length > 0 then "round:" ++ jsTrim s
        else "entry:" ++ stableStringify (Json.obj r)) = "round:" ++ jsTrim s
      rw [if_pos ht]
    have h1 : addFundingEntry [] (Json.obj l) = some [("round:" ++ jsTrim s, l)] := by
      simp [addFundingEntry, hs1, hkey1, hne1, lookupEntry_nil]
    have h2 : addFundingEntry [("round:" ++ jsTrim s, l)] (Json.obj r) =
        (pickLatestByUpdatedAt l r).map (fun w => [("round:" ++ jsTrim s, w)]) := by
      simp [addFundingEntry, hs2, hkey2, hne2, lookupEntry_cons_self, setEntry]
    rcases hp : pickLatestByUpdatedAt l r with _ | w
    · rw [hp] at h2
      unfold mergeFundingEntries
      simp [List.foldlM_cons, List.foldlM_nil, h1, h2]
    · rw [hp] at h2
      unfold mergeFundingEntries
      simp [List.foldlM_cons, List.foldlM_nil, h1, h2]

theorem claim_C5_witness :
    ((lookupField [("updated_at", Json.str "2023-01-01"), ("who", Json.str "L")]
        "updated_at").bind toTimestamp = some 1672531200000) ∧
    ((lookupField [("updated_at", Json.str "2024-01-01"), ("who", Json.str "R")]
        "updated_at").bind toTimestamp = some 1704067200000) ∧
    pickLatestByUpdatedAt
      [("updated_at", Json.str "2023-01-01"), ("who", Json.str "L")]
      [("updated_at", Json.str "2024-01-01"), ("who", Json.str "R")] =
      some (if (1672531200000 : Int) < 1704067200000
        then [("updated_at", Json.str "2024-01-01"), ("who", Json.str "R")]
        else [("updated_at", Json.str "2023-01-01"), ("who", Json.str "L")]) :=
  ⟨by decide, by decide,
    (claim_C5_amended
      [("updated_at", Json.str "2023-01-01"), ("who", Json.str "L")]
      [("updated_at", Json.str "2024-01-01"), ("who", Json.str "R")]).1
      1672531200000 1704067200000 (by decide) (by decide)⟩

/-- C7 (counterexample): a single line holding one JSON object is valid
JSON, so `JSON.parse` succeeds and the NDJSON fallback is never reached;
since the parsed value is not an array, `parseRecords` raises the
`Expected a JSON array or newline-delimited JSON objects` error instead of
accepting the one-object input. -/
theorem claim_C7_counterexample :
    jsonParseModel "\x7b\x22id\x22:\x22a\x22\x7d" =
      some (Json.obj [("id", Json.str "a")]) ∧
    parseRecords jsonParseModel "\x7b\x22id\x22:\x22a\x22\x7d" = none := by
  decide

/-- C7 (amended): record parsing yields no records on whitespace-only
input; yields the elements when the trimmed text parses as a JSON array;
fatally fails when the trimmed text parses as any non-array JSON value
(including a single line holding one JSON object); and only when the whole
text fails to parse does the NDJSON fallback run, succeeding exactly when
every non-blank trimmed line parses as a JSON object and failing fatally
otherwise; a two-line NDJSON input and a JSON array input are accepted
concretely. -/
theorem claim_C7_amended (jsonParse : String → Option Json) (raw : String) :
    ((jsTrim raw).length = 0 → parseRecords jsonParse raw = some []) ∧
    ((jsTrim raw).length ≠ 0 →
      ∀ (es : List Json), jsonParse (jsTrim raw) = some (Json.arr es) →
        parseRecords jsonParse raw = some es) ∧
    ((jsTrim raw).length ≠ 0 →
      ∀ (v : Json), jsonParse (jsTrim raw) = some v → (∀ es, v ≠ Json.arr es) →
        parseRecords jsonParse raw = none) ∧
    ((jsTrim raw).length ≠ 0 → jsonParse (jsTrim raw) = none →
      ∀ (records : List Json),
        (((splitOnNl (jsTrim raw).data).map (fun cs => jsTrim ⟨cs⟩)).filter
            (fun line => line.length > 0)).mapM jsonParse = some records →
        parseRecords jsonParse raw =
          (if records.all isJsonObject then some records else none)) ∧
    ((jsTrim raw).length ≠ 0 → jsonParse (jsTrim raw) = none →
      (((splitOnNl (jsTrim raw).data).map (fun cs => jsTrim ⟨cs⟩)).filter
          (fun line => line.length > 0)).mapM jsonParse = none →
      parseRecords jsonParse raw = none) ∧
    (parseRecords jsonParseModel
        "\x7b\x22id\x22:\x221\x22\x7d\n\x7b\x22id\x22:\x222\x22\x7d" =
      some [Json.obj [("id", Json.str "1")], Json.obj [("id", Json.str "2")]]) ∧
    (parseRecords jsonParseModel "[\x7b\x22id\x22:\x221\x22\x7d]" =
      some [Json.obj [("id", Json.str "1")]]) := by
  refine ⟨?_, ?_, ?_, ?_, ?_, by decide, by decide⟩
  · intro h
    unfold parseRecords
    rw [if_pos h]
  · intro h es harr
    unfold parseRecords
    rw [if_neg h, harr]
  · intro h v hv hne
    unfold parseRecords
    rw [if_neg h, hv]
    cases v with
    | null => rfl
    | bool b => rfl
    | num n => rfl
    | str s => rfl
    | arr es => exact absurd rfl (hne es)
    | obj fields => rfl
  · intro h hnone records hrec
    unfold parseRecords
    rw [if_neg h, hnone]
    simp only []
    rw [hrec]
  · intro h hnone hrec
    unfold parseRecords
    rw [if_neg h, hnone]
    simp only []
    rw [hrec]

theorem claim_C7_witness :
    ((jsTrim "[null]").length ≠ 0 ∧
      jsonParseModel (jsTrim "[null]") = some (Json.arr [Json.null])) ∧
    parseRecords jsonParseModel "[null]" = some [Json.null] :=
  ⟨⟨by decide, by decide⟩,
    (claim_C7_amended jsonParseModel "[null]").2.1 (by decide) [Json.null] (by decide)⟩

theorem lookupEntry_mem {α : Type} :
    ∀ (l : List (String × α)) (k : String) (x : α),
      lookupEntry l k = some x → (k, x) ∈ l := by
  intro l
  induction l with
  | nil =>
    intro k x h
    cases (show (none : Option α) = some x from h)
  | cons p rest ih =>
    intro k x h
    rw [lookupEntry_cons] at h
    by_cases hp : p.1 = k
    · rw [if_pos hp] at h
      have hx := Option.some.inj h
      exact List.mem_cons.mpr (Or.inl (by rw [← hp, ← hx]))
    · rw [if_neg hp] at h
      exact List.mem_cons_of_mem p (ih k x h)

theorem pickLatest_mem (l r w : List (String × Json))
    (h : pickLatestByUpdatedAt l r = some w) : w = l ∨ w = r := by
  unfold pickLatestByUpdatedAt at h
  split at h
  · rename_i lt rt hb1 hb2
    have h2 := Option.some.inj h
    by_cases hc : lt < rt
    · rw [if_pos hc] at h2
      exact Or.inr h2.symm
    · rw [if_neg hc] at h2
      exact Or.inl h2.symm
  · split at h
    · rename_i lv rv hl hr
      have h2 : (if toComparableString lv = toComparableString rv then some r
        else if strLt (toComparableString lv) (toComparableString rv) then some r
        else some l) = some w := h
      by_cases hc1 : toComparableString lv = toComparableString rv
      · rw [if_pos hc1] at h2
        exact Or.inr (Option.some.inj h2).symm
      · rw [if_neg hc1] at h2
        by_cases hc2 : strLt (toComparableString lv) (toComparableString rv) = true
        · rw [if_pos hc2] at h2
          exact Or.inr (Option.some.inj h2).symm
        · rw [if_neg hc2] at h2
          exact Or.inl (Option.some.inj h2).symm
    · cases h

theorem sanitize_foldl_clean :
    ∀ (value : List (String × Json)) (acc : List (String × Json)),
      (∀ kv ∈ acc, isInternalKey kv.1 = false) →
      ∀ kv ∈ value.foldl (fun sanitized kv =>
          if isInternalKey kv.1 then sanitized
          else setEntry sanitized kv.1 (cloneJsonValue kv.2)) acc,
        isInternalKey kv.1 = false := by
  intro value
  induction value with
  | nil => intro acc hacc kv h; exact hacc kv h
  | cons e rest ih =>
    intro acc hacc kv h
    simp only [List.foldl_cons] at h
    by_cases he : isInternalKey e.1 = true
    · rw [if_pos he] at h
      exact ih acc hacc kv h
    · rw [if_neg he] at h
      have he2 : isInternalKey e.1 = false := by
        cases hb : isInternalKey e.1
        · rfl
        · exact absurd hb he
      refine ih _ ?_ kv h
      intro kv2 h2
      rcases mem_setEntry acc e.1 (cloneJsonValue e.2) kv2 h2 with h3 | h3
      · rw [h3]
        exact he2
      · exact hacc kv2 h3

theorem removeFunding_foldl_clean :
    ∀ (record : List (String × Json)) (acc : List (String × Json)),
      (∀ kv ∈ record, isInternalKey kv.1 = false) →
      (∀ kv ∈ acc, isInternalKey kv.1 = false) →
      ∀ kv ∈ record.foldl (fun sanitized kv =>
          if kv.1 = "id" ∨ kv.1 = "project_id" then sanitized
          else setEntry sanitized kv.1 (cloneJsonValue kv.2)) acc,
        isInternalKey kv.1 = false := by
  intro record
  induction record with
  | nil => intro acc _ hacc kv h; exact hacc kv h
  | cons e rest ih =>
    intro acc hrec hacc kv h
    simp only [List.foldl_cons] at h
    by_cases he : e.1 = "id" ∨ e.1 = "project_id"
    · rw [if_pos he] at h
      exact ih acc (fun kv2 h2 => hrec kv2 (List.mem_cons_of_mem e h2)) hacc kv h
    · rw [if_neg he] at h
      refine ih _ (fun kv2 h2 => hrec kv2 (List.mem_cons_of_mem e h2)) ?_ kv h
      intro kv2 h2
      rcases mem_setEntry acc e.1 (cloneJsonValue e.2) kv2 h2 with h3 | h3
      · rw [h3]
        exact hrec e (List.mem_cons_self e rest)
      · exact hacc kv2 h3

theorem foldl_mergeSet_clean :
    ∀ (entries : List (String × Json)) (acc : List (String × Json)),
      (∀ kv ∈ entries, isInternalKey kv.1 = false) →
      (∀ kv ∈ acc, isInternalKey kv.1 = false) →
      ∀ kv ∈ entries.foldl
          (fun repo kv => setEntry repo kv.1 (mergeField (lookupField repo kv.1) kv.2)) acc,
        isInternalKey kv.1 = false := by
  intro entries
  induction entries with
  | nil => intro acc _ hacc kv h; exact hacc kv h
  | cons e rest ih =>
    intro acc hent hacc kv h
    simp only [List.foldl_cons] at h
    refine ih _ (fun kv2 h2 => hent kv2 (List.mem_cons_of_mem e h2)) ?_ kv h
    intro kv2 h2
    rcases mem_setEntry acc e.1 (mergeField (lookupField acc e.1) e.2) kv2 h2 with h3 | h3
    · rw [h3]
      exact hent e (List.mem_cons_self e rest)
    · exact hacc kv2 h3

theorem upsertRepository_clean (st : List (String × List (String × Json))) (v : Json)
    (hst : ∀ e ∈ st, ∀ kv ∈ e.2, isInternalKey kv.1 = false) :
    ∀ e ∈ upsertRepository st v, ∀ kv ∈ e.2, isInternalKey kv.1 = false := by
  intro e he kv hkv
  cases v with
  | obj fields =>
    simp only [upsertRepository] at he
    split at he
    · exact hst e he kv hkv
    · split at he
      · rcases List.mem_append.mp he with h1 | h1
        · exact hst e h1 kv hkv
        · have h2 := List.mem_singleton.mp h1
          subst h2
          rw [cloneJsonObject_eq] at hkv
          exact sanitize_foldl_clean fields []
            (fun kv2 hk2 => absurd hk2 (List.not_mem_nil kv2)) kv hkv
      · rename_i existingRepo heq
        rcases mem_setEntry _ _ _ _ he with h1 | h1
        · subst h1
          exact foldl_mergeSet_clean (sanitizeRepositoryObject fields) existingRepo
            (sanitize_foldl_clean fields []
              (fun kv2 hk2 => absurd hk2 (List.not_mem_nil kv2)))
            (hst _ (lookupEntry_mem st _ existingRepo heq)) kv hkv
        · exact hst e h1 kv hkv
  | null => exact hst e he kv hkv
  | bool b => exact hst e he kv hkv
  | num n => exact hst e he kv hkv
  | str s => exact hst e he kv hkv
  | arr es => exact hst e he kv hkv

theorem foldl_upsert_clean :
    ∀ (es : List Json) (st : List (String × List (String × Json))),
      (∀ e ∈ st, ∀ kv ∈ e.2, isInternalKey kv.1 = false) →
      ∀ e ∈ es.foldl upsertRepository st, ∀ kv ∈ e.2, isInternalKey kv.1 = false := by
  intro es
  induction es with
  | nil => intro st hst; exact hst
  | cons v rest ih =>
    intro st hst
    simp only [List.foldl_cons]
    exact ih (upsertRepository st v) (upsertRepository_clean st v hst)

theorem foldl_upsert_obj_clean :
    ∀ (inc : List (List (String × Json))) (st : List (String × List (String × Json))),
      (∀ e ∈ st, ∀ kv ∈ e.2, isInternalKey kv.1 = false) →
      ∀ e ∈ inc.foldl (fun st o => upsertRepository st (.obj o)) st,
        ∀ kv ∈ e.2, isInternalKey kv.1 = false := by
  intro inc
  induction inc with
  | nil => intro st hst; exact hst
  | cons o rest ih =>
    intro st hst
    simp only [List.foldl_cons]
    exact ih (upsertRepository st (.obj o)) (upsertRepository_clean st (.obj o) hst)

theorem mergeRepositories_clean (existing : Option Json)
    (incoming : List (List (String × Json))) (v : List Json)
    (h : mergeRepositories existing incoming = Json.arr v) :
    ∀ o ∈ v, ∀ (fields : List (String × Json)), o = Json.obj fields →
      ∀ kv ∈ fields, isInternalKey kv.1 = false := by
  intro o ho fields hof kv hkv
  have hst1 : ∀ e ∈ (match existing with
      | none => ([] : List (String × List (String × Json)))
      | some (.arr es) => es.foldl upsertRepository []
      | some w => upsertRepository [] w), ∀ kv2 ∈ e.2, isInternalKey kv2.1 = false := by
    cases existing with
    | none => intro e he; exact absurd he (List.not_mem_nil e)
    | some w =>
      cases w with
      | arr es =>
        exact foldl_upsert_clean es []
          (fun e he => absurd he (List.not_mem_nil e))
      | null =>
        exact upsertRepository_clean [] Json.null
          (fun e he => absurd he (List.not_mem_nil e))
      | bool b =>
        exact upsertRepository_clean [] (Json.bool b)
          (fun e he => absurd he (List.not_mem_nil e))
      | num n =>
        exact upsertRepository_clean [] (Json.num n)
          (fun e he => absurd he (List.not_mem_nil e))
      | str s =>
        exact upsertRepository_clean [] (Json.str s)
          (fun e he => absurd he (List.not_mem_nil e))
      | obj fs =>
        exact upsertRepository_clean [] (Json.obj fs)
          (fun e he => absurd he (List.not_mem_nil e))
  have h2 : Json.arr ((incoming.foldl (fun st o => upsertRepository st (.obj o))
      (match existing with
        | none => ([] : List (String × List (String × Json)))
        | some (.arr es) => es.foldl upsertRepository []
        | some w => upsertRepository [] w)).map
      (fun kv => Json.obj (cloneJsonObject kv.2))) = Json.arr v := h
  injection h2 with hv
  subst hv
  obtain ⟨e, he, heo⟩ := List.mem_map.mp ho
  rw [← heo] at hof
  injection hof with hf
  rw [cloneJsonObject_eq] at hf
  subst hf
  exact foldl_upsert_obj_clean incoming _ hst1 e he kv hkv

theorem addFundingEntry_clean (st st2 : List (String × List (String × Json))) (v : Json)
    (hst : ∀ e ∈ st, ∀ kv ∈ e.2, isInternalKey kv.1 = false)
    (h : addFundingEntry st v = some st2) :
    ∀ e ∈ st2, ∀ kv ∈ e.2, isInternalKey kv.1 = false := by
  cases v with
  | obj fields =>
    simp only [addFundingEntry] at h
    split at h
    · cases Option.some.inj h
      exact hst
    · split at h
      · cases Option.some.inj h
        intro e he kv hkv
        rcases List.mem_append.mp he with h1 | h1
        · exact hst e h1 kv hkv
        · have h2 := List.mem_singleton.mp h1
          subst h2
          exact sanitize_foldl_clean fields []
            (fun kv2 hk2 => absurd hk2 (List.not_mem_nil kv2)) kv hkv
      · rename_i existingEntry heq
        rcases hp : pickLatestByUpdatedAt existingEntry (sanitizeFundingRecord fields)
          with _ | w
        · rw [hp, Option.map_none'] at h
          cases h
        · rw [hp, Option.map_some'] at h
          cases Option.some.inj h
          intro e he kv hkv
          rcases mem_setEntry _ _ _ _ he with h1 | h1
          · subst h1
            rcases pickLatest_mem _ _ _ hp with hw | hw
            · rw [hw] at hkv
              exact hst _ (lookupEntry_mem st _ existingEntry heq) kv hkv
            · rw [hw] at hkv
              exact sanitize_foldl_clean fields []
                (fun kv2 hk2 => absurd hk2 (List.not_mem_nil kv2)) kv hkv
          · exact hst e h1 kv hkv
  | null =>
    cases Option.some.inj (show some st = some st2 from h)
    exact hst
  | bool b =>
    cases Option.some.inj (show some st = some st2 from h)
    exact hst
  | num n =>
    cases Option.some.inj (show some st = some st2 from h)
    exact hst
  | str s =>
    cases Option.some.inj (show some st = some st2 from h)
    exact hst
  | arr es =>
    cases Option.some.inj (show some st = some st2 from h)
    exact hst

theorem addFunding_foldlM_clean :
    ∀ (vals : List Json) (st st2 : List (String × List (String × Json))),
      (∀ e ∈ st, ∀ kv ∈ e.2, isInternalKey kv.1 = false) →
      vals.foldlM addFundingEntry st = some st2 →
      ∀ e ∈ st2, ∀ kv ∈ e.2, isInternalKey kv.1 = false := by
  intro vals
  induction vals with
  | nil =>
    intro st st2 hst h
    cases Option.some.inj (show some st = some st2 from h)
    exact hst
  | cons v rest ih =>
    intro st st2 hst h
    rw [List.foldlM_cons] at h
    rcases ha : addFundingEntry st v with _ | st1
    · rw [ha] at h
      cases (show (none : Option (List (String × List (String × Json)))) = some st2 from h)
    · rw [ha] at h
      exact ih st1 st2 (addFundingEntry_clean st st1 v hst ha)
        (show rest.foldlM addFundingEntry st1 = some st2 from h)

theorem mergeFunding_tail_clean (incoming : List Json)
    (st1 : List (String × List (String × Json)))
    (hst1 : ∀ e ∈ st1, ∀ kv ∈ e.2, isInternalKey kv.1 = false)
    (out : List (List (String × Json)))
    (h : (incoming.foldlM addFundingEntry st1) >>=
      (fun st => some (st.map (fun kv => removeFundingInternalKeys kv.2))) = some out) :
    ∀ entry ∈ out, ∀ kv ∈ entry, isInternalKey kv.1 = false := by
  rcases hf : incoming.foldlM addFundingEntry st1 with _ | stF
  · rw [hf] at h
    cases (show (none : Option (List (List (String × Json)))) = some out from h)
  · rw [hf] at h
    cases Option.some.inj
      (show some (stF.map (fun kv => removeFundingInternalKeys kv.2)) = some out from h)
    intro entry hentry kv hkv
    obtain ⟨e, he, heq⟩ := List.mem_map.mp hentry
    subst heq
    exact removeFunding_foldl_clean e.2 []
      (addFunding_foldlM_clean incoming st1 stF hst1 hf e he)
      (fun kv2 hk2 => absurd hk2 (List.not_mem_nil kv2)) kv hkv

theorem mergeFundingEntries_clean (existing : Option Json) (incoming : List Json)
    (out : List (List (String × Json)))
    (h : mergeFundingEntries existing incoming = some out) :
    ∀ entry ∈ out, ∀ kv ∈ entry, isInternalKey kv.1 = false := by
  cases existing with
  | none =>
    exact mergeFunding_tail_clean incoming []
      (fun e he => absurd he (List.not_mem_nil e)) out h
  | some w =>
    cases w with
    | arr es =>
      rcases h0 : es.foldlM addFundingEntry [] with _ | st1
      · have h2 : (es.foldlM addFundingEntry
            ([] : List (String × List (String × Json)))) >>=
            (fun st1 => (incoming.foldlM addFundingEntry st1) >>=
              (fun st => some (st.map (fun kv => removeFundingInternalKeys kv.2)))) =
            some out := h
        rw [h0] at h2
        cases (show (none : Option (List (List (String × Json)))) = some out from h2)
      · have h2 : (es.foldlM addFundingEntry
            ([] : List (String × List (String × Json)))) >>=
            (fun st1 => (incoming.foldlM addFundingEntry st1) >>=
              (fun st => some (st.map (fun kv => removeFundingInternalKeys kv.2)))) =
            some out := h
        rw [h0] at h2
        exact mergeFunding_tail_clean incoming st1
          (addFunding_foldlM_clean es [] st1
            (fun e he => absurd he (List.not_mem_nil e)) h0) out
          (show (incoming.foldlM addFundingEntry st1) >>=
            (fun st => some (st.map (fun kv => removeFundingInternalKeys kv.2))) =
            some out from h2)
    | obj fs =>
      rcases h0 : addFundingEntry [] (Json.obj fs) with _ | st1
      · have h2 : (addFundingEntry ([] : List (String × List (String × Json)))
            (Json.obj fs)) >>=
            (fun st1 => (incoming.foldlM addFundingEntry st1) >>=
              (fun st => some (st.map (fun kv => removeFundingInternalKeys kv.2)))) =
            some out := h
        rw [h0] at h2
        cases (show (none : Option (List (List (String × Json)))) = some out from h2)
      · have h2 : (addFundingEntry ([] : List (String × List (String × Json)))
            (Json.obj fs)) >>=
            (fun st1 => (incoming.foldlM addFundingEntry st1) >>=
              (fun st => some (st.map (fun kv => removeFundingInternalKeys kv.2)))) =
            some out := h
        rw [h0] at h2
        exact mergeFunding_tail_clean incoming st1
          (addFundingEntry_clean [] st1 (Json.obj fs)
            (fun e he => absurd he (List.not_mem_nil e)) h0) out
          (show (incoming.foldlM addFundingEntry st1) >>=
            (fun st => some (st.map (fun kv => removeFundingInternalKeys kv.2))) =
            some out from h2)
    | null =>
      exact mergeFunding_tail_clean incoming []
        (fun e he => absurd he (List.not_mem_nil e)) out h
    | bool b =>
      exact mergeFunding_tail_clean incoming []
        (fun e he => absurd he (List.not_mem_nil e)) out h
    | num n =>
      exact mergeFunding_tail_clean incoming []
        (fun e he => absurd he (List.not_mem_nil e)) out h
    | str s =>
      exact mergeFunding_tail_clean incoming []
        (fun e he => absurd he (List.not_mem_nil e)) out h

theorem merged_fold_no_repositories :
    ∀ (rs : List (List (String × Json)))
      (st0 : (List (String × Json)) × List (List (String × Json))),
      containsKey st0.1 "repositories" = false →
      containsKey
        ((rs.foldl
          (fun (st : (List (String × Json)) × List (List (String × Json))) record =>
            let ex := extractRepositoryEntries record
            let merged :=
              ex.2.foldl
                (fun merged kv =>
                  setEntry merged kv.1 (mergeField (lookupField merged kv.1) kv.2))
                st.1
            (merged, st.2 ++ ex.1))
          st0).1) "repositories" = false := by
  intro rs
  induction rs with
  | nil => intro st0 h; exact h
  | cons r rest ih =>
    intro st0 h
    simp only [List.foldl_cons]
    apply ih
    by_contra hc
    have hc2 : containsKey
        ((extractRepositoryEntries r).2.foldl
          (fun merged kv =>
            setEntry merged kv.1 (mergeField (lookupField merged kv.1) kv.2))
          st0.1) "repositories" = true := by
      cases hb : containsKey
          ((extractRepositoryEntries r).2.foldl
            (fun merged kv =>
              setEntry merged kv.1 (mergeField (lookupField merged kv.1) kv.2))
            st0.1) "repositories"
      · exact absurd hb hc
      · rfl
    rcases containsKey_foldl_merge_elim _ _ _ hc2 with h1 | h1
    · rw [h1] at h
      cases h
    · obtain ⟨kv, hkv, hk⟩ := h1
      exact (extract_otherEntries_spec r kv hkv).2.2.1 hk

theorem mergeGroupRecords_clean (records : List (List (String × Json))) :
    ∀ kv ∈ mergeGroupRecords records, isInternalKey kv.1 = false := by
  intro kv h
  have hck : containsKey (mergeGroupRecords records) kv.1 = true :=
    (containsKey_iff_exists _ _).mpr ⟨kv, h, rfl⟩
  rcases mergeGroupRecords_keys records kv.1 hck with h1 | h1
  · rw [h1]
    decide
  · exact h1.1

theorem mergeGroupRecords_repositories (records : List (List (String × Json))) (v : Json)
    (h : lookupField (mergeGroupRecords records) "repositories" = some v) :
    ∃ existing incoming, v = mergeRepositories existing incoming := by
  have h2 : lookupField
      (if (records.foldl
          (fun (st : (List (String × Json)) × List (List (String × Json))) record =>
            let ex := extractRepositoryEntries record
            let merged :=
              ex.2.foldl
                (fun merged kv =>
                  setEntry merged kv.1 (mergeField (lookupField merged kv.1) kv.2))
                st.1
            (merged, st.2 ++ ex.1))
          ([], [])).2.length > 0 then
        setEntry
          (records.foldl
            (fun (st : (List (String × Json)) × List (List (String × Json))) record =>
              let ex := extractRepositoryEntries record
              let merged :=
                ex.2.foldl
                  (fun merged kv =>
                    setEntry merged kv.1 (mergeField (lookupField merged kv.1) kv.2))
                  st.1
              (merged, st.2 ++ ex.1))
            ([], [])).1 "repositories"
          (mergeRepositories
            (lookupField
              (records.foldl
                (fun (st : (List (String × Json)) × List (List (String × Json))) record =>
                  let ex := extractRepositoryEntries record
                  let merged :=
                    ex.2.foldl
                      (fun merged kv =>
                        setEntry merged kv.1 (mergeField (lookupField merged kv.1) kv.2))
                      st.1
                  (merged, st.2 ++ ex.1))
                ([], [])).1 "repositories")
            (records.foldl
              (fun (st : (List (String × Json)) × List (List (String × Json))) record =>
                let ex := extractRepositoryEntries record
                let merged :=
                  ex.2.foldl
                    (fun merged kv =>
                      setEntry merged kv.1 (mergeField (lookupField merged kv.1) kv.2))
                    st.1
                (merged, st.2 ++ ex.1))
              ([], [])).2)
      else
        (records.foldl
          (fun (st : (List (String × Json)) × List (List (String × Json))) record =>
            let ex := extractRepositoryEntries record
            let merged :=
              ex.2.foldl
                (fun merged kv =>
                  setEntry merged kv.1 (mergeField (lookupField merged kv.1) kv.2))
                st.1
            (merged, st.2 ++ ex.1))
          ([], [])).1) "repositories" = some v := h
  split at h2
  · rw [lookupField_eq_lookupEntry, lookupEntry_setEntry_self] at h2
    exact ⟨_, _, (Option.some.inj h2).symm⟩
  · have hno := merged_fold_no_repositories records ([], []) rfl
    rw [containsKey_iff_lookup, h2] at hno
    cases hno

/-- C10 (claim): internal `_dlt`-prefixed keys are stripped everywhere — no
merged output record of a collapse carries one at top level, the value a
merged record holds under `repositories` is always a repository-merge
result, repository-merge results contain only objects free of such keys,
and every funding entry emitted by the funding merge is free of them; the
`_dlt` prefix is exactly what the internal-key test recognises. -/
theorem claim_C10_internal_keys (records : List Json) (idField metadataField : String) :
    (∀ rec ∈ (collapseRecords records idField metadataField).collapsed,
      ∀ kv ∈ rec, isInternalKey kv.1 = false) ∧
    (∀ rec ∈ (collapseRecords records idField metadataField).collapsed,
      ∀ v, lookupField rec "repositories" = some v →
        ∃ existing incoming, v = mergeRepositories existing incoming) ∧
    (∀ (existing : Option Json) (incoming : List (List (String × Json))) (v : List Json),
      mergeRepositories existing incoming = Json.arr v →
      ∀ o ∈ v, ∀ (fields : List (String × Json)), o = Json.obj fields →
        ∀ kv ∈ fields, isInternalKey kv.1 = false) ∧
    (∀ (existing : Option Json) (incoming : List Json)
        (out : List (List (String × Json))),
      mergeFundingEntries existing incoming = some out →
      ∀ entry ∈ out, ∀ kv ∈ entry, isInternalKey kv.1 = false) ∧
    isInternalKey "_dlt_id" = true ∧ isInternalKey "_dlt_load_id" = true ∧
    isInternalKey "name" = false := by
  refine ⟨?_, ?_, ?_, ?_, by decide, by decide, by decide⟩
  · intro rec hrec kv hkv
    have h2 : rec ∈ (records.foldl (collapseStep idField metadataField)
        ⟨[], 0, 0, 0⟩).byId.map (fun kv => mergeGroupRecords kv.2.records) := hrec
    obtain ⟨g, hg, hgeq⟩ := List.mem_map.mp h2
    subst hgeq
    exact mergeGroupRecords_clean g.2.records kv hkv
  · intro rec hrec v hv
    have h2 : rec ∈ (records.foldl (collapseStep idField metadataField)
        ⟨[], 0, 0, 0⟩).byId.map (fun kv => mergeGroupRecords kv.2.records) := hrec
    obtain ⟨g, hg, hgeq⟩ := List.mem_map.mp h2
    subst hgeq
    exact mergeGroupRecords_repositories g.2.records v hv
  · exact fun existing incoming v h => mergeRepositories_clean existing incoming v h
  · exact fun existing incoming out h => mergeFundingEntries_clean existing incoming out h

theorem claim_C10_witness :
    (∀ rec ∈ (collapseRecords
        [Json.obj [("id", Json.str "a"),
          ("last_metadata_update", Json.str "2024-01-01"),
          ("_dlt_id", Json.str "x"), ("name", Json.str "n")]]
        "id" "last_metadata_update").collapsed,
      ∀ kv ∈ rec, isInternalKey kv.1 = false) ∧
    (collapseRecords
        [Json.obj [("id", Json.str "a"),
          ("last_metadata_update", Json.str "2024-01-01"),
          ("_dlt_id", Json.str "x"), ("name", Json.str "n")]]
        "id" "last_metadata_update").collapsed =
      [[("id", Json.str "a"), ("last_metadata_update", Json.str "2024-01-01"),
        ("name", Json.str "n")]] :=
  ⟨(claim_C10_internal_keys
      [Json.obj [("id", Json.str "a"),
        ("last_metadata_update", Json.str "2024-01-01"),
        ("_dlt_id", Json.str "x"), ("name", Json.str "n")]]
      "id" "last_metadata_update").1, by decide⟩

end Collapse